import Mathlib

/-!
Verification development for the multi-provider market-data aggregation layer
in `workflows/data_source_manager.py` (class `DataSourceManager`).

The Python source is shallowly embedded: pure fragments become Lean functions,
the manager's mutable attributes become an explicit `DSMState` record threaded
through each operation, network I/O is replaced by oracles passed as function
arguments, and Python exceptions become `Except Unit`.  Numeric values parsed
from provider payloads are represented exactly as unreduced decimal fractions
(`Px`), since the modelled operations never perform arithmetic on prices, only
parse, store, project and compare them.
-/

/- ═══════════ Python string primitives ═══════════ -/

/-- Whitespace test used by Python `str.split()` with no arguments
(ASCII whitespace; exotic unicode spaces do not occur in ticker strings). -/
def pyIsSpace (c : Char) : Bool :=
  c = ' ' || c = '\t' || c = '\n' || c = '\r' || c = '\x0b' || c = '\x0c'

/-- Helper for `pySplitWs`: walks the character list accumulating the current
token (in reverse), emitting a token at each whitespace run. -/
def splitWsAux : List Char → List Char → List String
  | [], [] => []
  | [], acc => [String.mk acc.reverse]
  | ch :: cs, acc =>
    if pyIsSpace ch then
      match acc with
      | [] => splitWsAux cs []
      | _ => String.mk acc.reverse :: splitWsAux cs []
    else splitWsAux cs (ch :: acc)

/-- Python `s.split()` with no arguments: split on whitespace runs, discarding
empty tokens (leading/trailing whitespace never yields a token, so the
`strip()` the source applies first is a no-op for the token list). -/
def pySplitWs (s : String) : List String := splitWsAux s.data []

/-- Lexicographic comparison on code-point lists, mirroring Python string
comparison (`sorted` uses it): compare code points; on a tie recurse. -/
def lexLe : List Char → List Char → Bool
  | [], _ => true
  | _ :: _, [] => false
  | a :: as, b :: bs =>
    if a.toNat = b.toNat then lexLe as bs
    else decide (a.toNat < b.toNat)

/-- Python string `<=` on the underlying code points. -/
def strLeB (a b : String) : Bool := lexLe a.data b.data

/-- Propositional form of `strLeB`, used as the sorting relation. -/
def leS (a b : String) : Prop := strLeB a b = true

instance : DecidableRel leS := fun a b => by unfold leS; infer_instance

theorem lexLe_cons_elim {x y : Char} {xs ys : List Char}
    (hle : lexLe (x :: xs) (y :: ys) = true) :
    (x.toNat = y.toNat ∧ lexLe xs ys = true) ∨ x.toNat < y.toNat := by
  by_cases hxy : x.toNat = y.toNat
  · left
    refine ⟨hxy, ?_⟩
    simpa only [lexLe, if_pos hxy] using hle
  · right
    have h2 := hle
    simp only [lexLe, if_neg hxy] at h2
    exact of_decide_eq_true h2

theorem lexLe_cons_of_eq {x y : Char} {xs ys : List Char}
    (h : x.toNat = y.toNat) (hr : lexLe xs ys = true) :
    lexLe (x :: xs) (y :: ys) = true := by
  simp only [lexLe, if_pos h]
  exact hr

theorem lexLe_cons_of_lt {x y : Char} {xs ys : List Char}
    (h : x.toNat < y.toNat) : lexLe (x :: xs) (y :: ys) = true := by
  simp only [lexLe, if_neg (Nat.ne_of_lt h)]
  exact decide_eq_true h

theorem lexLe_total (a b : List Char) : lexLe a b = true ∨ lexLe b a = true := by
  induction a generalizing b with
  | nil => left; rfl
  | cons x xs ih =>
    cases b with
    | nil => right; rfl
    | cons y ys =>
      rcases Nat.lt_trichotomy x.toNat y.toNat with hlt | heq | hgt
      · exact Or.inl (lexLe_cons_of_lt hlt)
      · rcases ih ys with h2 | h2
        · exact Or.inl (lexLe_cons_of_eq heq h2)
        · exact Or.inr (lexLe_cons_of_eq heq.symm h2)
      · exact Or.inr (lexLe_cons_of_lt hgt)

theorem lexLe_trans {a b c : List Char} (h1 : lexLe a b = true)
    (h2 : lexLe b c = true) : lexLe a c = true := by
  induction a generalizing b c with
  | nil => rfl
  | cons x xs ih =>
    cases b with
    | nil => simp [lexLe] at h1
    | cons y ys =>
      cases c with
      | nil => simp [lexLe] at h2
      | cons z zs =>
        rcases lexLe_cons_elim h1 with ⟨he1, hr1⟩ | hl1 <;>
          rcases lexLe_cons_elim h2 with ⟨he2, hr2⟩ | hl2
        · exact lexLe_cons_of_eq (he1.trans he2) (ih hr1 hr2)
        · exact lexLe_cons_of_lt (he1 ▸ hl2)
        · exact lexLe_cons_of_lt (he2 ▸ hl1)
        · exact lexLe_cons_of_lt (Nat.lt_trans hl1 hl2)

theorem charToNat_inj {a b : Char} (h : a.toNat = b.toNat) : a = b :=
  Char.eq_of_val_eq (UInt32.ext h)

theorem lexLe_antisymm {a b : List Char} (h1 : lexLe a b = true)
    (h2 : lexLe b a = true) : a = b := by
  induction a generalizing b with
  | nil =>
    cases b with
    | nil => rfl
    | cons y ys => simp [lexLe] at h2
  | cons x xs ih =>
    cases b with
    | nil => simp [lexLe] at h1
    | cons y ys =>
      rcases lexLe_cons_elim h1 with ⟨he1, hr1⟩ | hl1 <;>
        rcases lexLe_cons_elim h2 with ⟨he2, hr2⟩ | hl2
      · rw [charToNat_inj he1, ih hr1 hr2]
      · exact absurd (he1 ▸ hl2) (Nat.lt_irrefl _)
      · exact absurd (he2 ▸ hl1) (Nat.lt_irrefl _)
      · exact absurd hl2 (Nat.lt_asymm hl1)

instance : IsTotal String leS :=
  ⟨fun a b => lexLe_total a.data b.data⟩

instance : IsTrans String leS :=
  ⟨fun _ _ _ h1 h2 => lexLe_trans h1 h2⟩

instance : IsAntisymm String leS :=
  ⟨fun a b h1 h2 => by
    have hd := lexLe_antisymm h1 h2
    cases a
    cases b
    exact congrArg String.mk hd⟩

/-- Python `sorted` on a list of strings (ascending code-point order).
`insertionSort` is extensionally equal to Python's stable sort because both
return the unique `leS`-sorted permutation of the input. -/
def pySorted (l : List String) : List String := l.insertionSort leS

/- ═══════════ Python numeric parsing ═══════════ -/

/-- Exact decimal value, kept as an unreduced fraction `n / d` with `d` a
power of ten.  Prices flow through the manager unchanged, so representation
equality coincides with value equality for values originating from the same
payload string. -/
structure Px where
  n : Int
  d : Nat
  deriving DecidableEq, Repr

/-- Numeric value of a digit character. -/
def digitVal (c : Char) : Nat := c.toNat - 48

/-- Value of a digit string (most significant first). -/
def natOfDigits (l : List Char) : Nat := l.foldl (fun a c => 10 * a + digitVal c) 0

/-- Surrounding-whitespace strip applied by Python `float()`. -/
def pyStrip (cs : List Char) : List Char :=
  ((cs.dropWhile pyIsSpace).reverse.dropWhile pyIsSpace).reverse

/-- Parser for the decimal literals Python `float()` accepts in Alpha Vantage
payloads: optional sign, digits with an optional fractional part (at least one
digit overall).  Strings outside this grammar (letters, empty, etc.) make
Python's `float()` raise `ValueError`; exponent forms and `inf`/`nan` never
occur in these payloads and are likewise rejected. -/
def parseDec (s : String) : Option Px :=
  let cs := pyStrip s.data
  let signed : Int × List Char :=
    match cs with
    | '-' :: r => (-1, r)
    | '+' :: r => (1, r)
    | r => (1, r)
  let sign := signed.1
  let body := signed.2
  let ip := body.takeWhile (·.isDigit)
  let rest := body.drop ip.length
  match rest with
  | [] =>
    if ip.isEmpty then none
    else some ⟨sign * (natOfDigits ip : Int), 1⟩
  | '.' :: fp =>
    if fp.all (·.isDigit) && !(ip.isEmpty && fp.isEmpty) then
      some ⟨sign * ((natOfDigits ip : Int) * (10 ^ fp.length : Nat) + (natOfDigits fp : Int)),
            10 ^ fp.length⟩
    else none
  | _ => none

/-- Python `float(vals.get(key, 0))`: a missing key defaults to `0`, a present
string is parsed by `float()` which raises (`.error`) on unparsable input. -/
def pyFloatD : Option String → Except Unit Px
  | none => .ok ⟨0, 1⟩
  | some s =>
    match parseDec s with
    | some p => .ok p
    | none => .error ()

/-- Python `int()` truncation toward zero applied to an exact decimal. -/
def pxTrunc (p : Px) : Int := Int.tdiv p.n (p.d : Int)

/-- Python `a or b` on optional strings: `None` and the empty string are
falsy, any other string is returned. -/
def pyTruthy : Option String → Option String
  | none => none
  | some s => if s = "" then none else some s

/-- First truthy value of the chain `a or b` (`none` when both are falsy,
in which case the source falls back to the literal `0`). -/
def pyOrS (a b : Option String) : Option String :=
  match pyTruthy a with
  | some s => some s
  | none => pyTruthy b

instance exceptDecEq {ε α : Type} [DecidableEq ε] [DecidableEq α] :
    DecidableEq (Except ε α) := fun a b =>
  match a, b with
  | .ok x, .ok y =>
    if h : x = y then .isTrue (by rw [h]) else .isFalse (by intro hc; cases hc; exact h rfl)
  | .error x, .error y =>
    if h : x = y then .isTrue (by rw [h]) else .isFalse (by intro hc; cases hc; exact h rfl)
  | .ok _, .error _ => .isFalse (by intro hc; cases hc)
  | .error _, .ok _ => .isFalse (by intro hc; cases hc)

/- ═══════════ Payload and frame shapes ═══════════ -/

/-- One entry of the `'Time Series (Daily)'` object: the raw strings stored
under the five field keys, `none` when the key is absent. -/
structure AVEntry where
  o : Option String
  h : Option String
  l : Option String
  c : Option String
  v : Option String
  deriving DecidableEq, Repr

/-- One entry of the `'Time Series (Digital Currency Daily)'` object: each
field may appear under a new-style `(USD)` key or an old-style key. -/
structure CryptoEntry where
  oA : Option String
  o : Option String
  hA : Option String
  h : Option String
  lA : Option String
  l : Option String
  cA : Option String
  c : Option String
  v : Option String
  deriving DecidableEq, Repr

/-- One entry of the `'Time Series FX (Daily)'` object. -/
structure FxEntry where
  o : Option String
  h : Option String
  l : Option String
  c : Option String
  deriving DecidableEq, Repr

/-- Response payload of a successful Alpha Vantage request.  Dates are day
ordinals (`pd.Timestamp` is injective and monotone on the uniform
`YYYY-MM-DD` keys Alpha Vantage emits).  The option is `none` when the
expected time-series key is absent from the JSON object. -/
inductive AVPayload
  | daily (ts : Option (List (Nat × AVEntry)))
  | cryptoDaily (ts : Option (List (Nat × CryptoEntry)))
  | fxDaily (ts : Option (List (Nat × FxEntry)))
  deriving DecidableEq, Repr

/-- One row of a canonical OHLCV frame (a pandas row indexed by date). -/
structure Row where
  date : Nat
  o : Px
  h : Px
  l : Px
  c : Px
  v : Px
  deriving DecidableEq, Repr

/-- Date-indexed OHLCV table for one instrument. -/
abbrev Frame := List Row

/-- Sorting relation on rows: ascending date, mirroring `df.sort_index()`. -/
def rowLe (a b : Row) : Prop := a.date ≤ b.date

instance : DecidableRel rowLe := fun a b => Nat.decLe a.date b.date

instance : IsTotal Row rowLe := ⟨fun a b => Nat.le_total a.date b.date⟩

instance : IsTrans Row rowLe := ⟨fun _ _ _ h1 h2 => Nat.le_trans h1 h2⟩

/-- Stable ascending sort by date (`df.sort_index()`). -/
def sortByDate (f : Frame) : Frame := f.insertionSort rowLe

/- ═══════════ Response normalizers ═══════════ -/

/-- Row built from one daily entry; missing fields default to `0`, unparsable
fields raise (the first raising `float()` aborts the conversion, so a single
error result stands for whichever call raised).  Volume is `int(float(v))`. -/
def rowOfDaily (d : Nat) (e : AVEntry) : Except Unit Row :=
  match pyFloatD e.o, pyFloatD e.h, pyFloatD e.l, pyFloatD e.c, pyFloatD e.v with
  | .ok o, .ok h, .ok l, .ok c, .ok v => .ok ⟨d, o, h, l, c, ⟨pxTrunc v, 1⟩⟩
  | _, _, _, _, _ => .error ()

/-- Row-list accumulation of `_av_daily_to_df`: any raising entry aborts the
whole list. -/
def rowsOfDaily : List (Nat × AVEntry) → Except Unit (List Row)
  | [] => .ok []
  | (d, e) :: rest =>
    match rowOfDaily d e, rowsOfDaily rest with
    | .ok r, .ok rs => .ok (r :: rs)
    | .error u, _ => .error u
    | .ok _, .error u => .error u

/-- Model of `DataSourceManager._av_daily_to_df` (source lines 397-424):
returns `none` when the time-series key is absent or the row list is empty,
otherwise the rows sorted ascending by date.  A `ValueError` from `float()`
propagates as `.error`. -/
def avDailyToDf (p : AVPayload) : Except Unit (Option Frame) :=
  match p with
  | .daily none => .ok none
  | .daily (some ts) =>
    match rowsOfDaily ts with
    | .error u => .error u
    | .ok rows => if rows.isEmpty then .ok none else .ok (some (sortByDate rows))
  | _ => .ok none

/-- Row built from one crypto entry: each field tries the `(USD)` key, then
the legacy key, then defaults to `0` (Python `or` chains). -/
def rowOfCrypto (d : Nat) (e : CryptoEntry) : Except Unit Row :=
  match pyFloatD (pyOrS e.oA e.o), pyFloatD (pyOrS e.hA e.h),
      pyFloatD (pyOrS e.lA e.l), pyFloatD (pyOrS e.cA e.c),
      pyFloatD (pyTruthy e.v) with
  | .ok o, .ok h, .ok l, .ok c, .ok v => .ok ⟨d, o, h, l, c, v⟩
  | _, _, _, _, _ => .error ()

/-- Row-list accumulation of `_av_crypto_to_df`. -/
def rowsOfCrypto : List (Nat × CryptoEntry) → Except Unit (List Row)
  | [] => .ok []
  | (d, e) :: rest =>
    match rowOfCrypto d e, rowsOfCrypto rest with
    | .ok r, .ok rs => .ok (r :: rs)
    | .error u, _ => .error u
    | .ok _, .error u => .error u

/-- Model of `DataSourceManager._av_crypto_to_df` (source lines 426-459). -/
def avCryptoToDf (p : AVPayload) : Except Unit (Option Frame) :=
  match p with
  | .cryptoDaily none => .ok none
  | .cryptoDaily (some ts) =>
    match rowsOfCrypto ts with
    | .error u => .error u
    | .ok rows => if rows.isEmpty then .ok none else .ok (some (sortByDate rows))
  | _ => .ok none

/-- Row built from one FX entry; volume is the literal `0`. -/
def rowOfFx (d : Nat) (e : FxEntry) : Except Unit Row :=
  match pyFloatD e.o, pyFloatD e.h, pyFloatD e.l, pyFloatD e.c with
  | .ok o, .ok h, .ok l, .ok c => .ok ⟨d, o, h, l, c, ⟨0, 1⟩⟩
  | _, _, _, _ => .error ()

/-- Row-list accumulation of `_av_fx_to_df`. -/
def rowsOfFx : List (Nat × FxEntry) → Except Unit (List Row)
  | [] => .ok []
  | (d, e) :: rest =>
    match rowOfFx d e, rowsOfFx rest with
    | .ok r, .ok rs => .ok (r :: rs)
    | .error u, _ => .error u
    | .ok _, .error u => .error u

/-- Model of `DataSourceManager._av_fx_to_df` (source lines 461-488). -/
def avFxToDf (p : AVPayload) : Except Unit (Option Frame) :=
  match p with
  | .fxDaily none => .ok none
  | .fxDaily (some ts) =>
    match rowsOfFx ts with
    | .error u => .error u
    | .ok rows => if rows.isEmpty then .ok none else .ok (some (sortByDate rows))
  | _ => .ok none

/- ═══════════ Static symbol tables ═══════════ -/

/-- Module constant `INDEX_TO_ETF`: index ticker to ETF proxy symbol;
`none` is the explicit "no ETF proxy" sentinel stored in the table. -/
def INDEX_TO_ETF : List (String × Option String) := [
  ("^GSPC", some "SPY"), ("^IXIC", some "QQQ"), ("^DJI", some "DIA"),
  ("^RUT", some "IWM"), ("^VIX", some "VIXY"), ("^VIX9D", none),
  ("^HSI", some "EWH"), ("^HSTECH", none), ("^N225", some "EWJ"),
  ("^FTSE", some "EWU"), ("^GDAXI", some "EWG"), ("^STOXX50E", some "FEZ"),
  ("^TNX", none), ("^FVX", none), ("^IRX", none)]

/-- Module constant `CRYPTO_MAP`: yfinance-style crypto ticker to the Alpha
Vantage digital-currency symbol. -/
def CRYPTO_MAP : List (String × String) :=
  [("BTC-USD", "BTC"), ("ETH-USD", "ETH"), ("SOL-USD", "SOL")]

/-- Module constant `FX_MAP`: FX ticker to the (from, to) currency pair. -/
def FX_MAP : List (String × (String × String)) := [("CNY=X", ("USD", "CNY"))]

/-- Module constant `AKSHARE_US_PREFIX` (initial contents): standard ticker to
the prefixed code of the AkShare US endpoint.  The table is mutated at run
time by the dynamic probe, so it lives in the manager state and this constant
is only its initial value. -/
def akshareUsStaticCodes : List (String × String) := [
  ("QQQ", "105.QQQ"), ("TLT", "105.TLT"), ("IEF", "105.IEF"), ("SHY", "105.SHY"),
  ("PDBC", "105.PDBC"), ("MCHI", "105.MCHI"),
  ("SPY", "107.SPY"), ("DIA", "107.DIA"), ("IWM", "107.IWM"),
  ("HYG", "107.HYG"), ("LQD", "107.LQD"), ("UUP", "107.UUP"), ("GLD", "107.GLD"),
  ("SLV", "107.SLV"), ("GDX", "107.GDX"), ("USO", "107.USO"), ("CPER", "107.CPER"),
  ("DBA", "107.DBA"), ("BKLN", "107.BKLN"), ("KRE", "107.KRE"),
  ("KWEB", "107.KWEB"), ("FXI", "107.FXI"), ("EWH", "107.EWH"),
  ("EWJ", "107.EWJ"), ("EWU", "107.EWU"), ("EWG", "107.EWG"), ("FEZ", "107.FEZ"),
  ("VIXY", "107.VIXY"), ("FXY", "107.FXY"), ("FXE", "107.FXE"),
  ("USHY", "107.USHY"), ("UNG", "107.UNG"),
  ("AAPL", "105.AAPL"), ("MSFT", "105.MSFT"), ("AMZN", "105.AMZN"), ("GOOGL", "105.GOOGL"),
  ("META", "105.META"), ("NVDA", "105.NVDA"), ("TSLA", "105.TSLA"), ("AMD", "105.AMD"),
  ("NFLX", "105.NFLX"), ("AVGO", "105.AVGO"), ("COST", "105.COST"), ("ADBE", "105.ADBE"),
  ("INTC", "105.INTC"), ("QCOM", "105.QCOM"), ("PYPL", "105.PYPL"),
  ("TXN", "105.TXN"), ("MU", "105.MU"), ("AMAT", "105.AMAT"), ("LRCX", "105.LRCX"),
  ("KLAC", "105.KLAC"), ("MRVL", "105.MRVL"), ("SNPS", "105.SNPS"), ("CDNS", "105.CDNS"),
  ("PANW", "105.PANW"), ("CRWD", "105.CRWD"), ("ABNB", "105.ABNB"), ("COIN", "105.COIN"),
  ("PDD", "105.PDD"),
  ("JPM", "106.JPM"), ("V", "106.V"), ("MA", "106.MA"), ("BAC", "106.BAC"),
  ("WMT", "106.WMT"), ("JNJ", "106.JNJ"), ("PG", "106.PG"), ("UNH", "106.UNH"),
  ("HD", "106.HD"), ("DIS", "106.DIS"), ("BA", "106.BA"), ("GS", "106.GS"),
  ("XOM", "106.XOM"), ("CVX", "106.CVX"),
  ("BRK-B", "106.BRK_B"),
  ("TSM", "106.TSM"), ("LLY", "106.LLY"), ("NVO", "106.NVO"),
  ("BABA", "106.BABA"), ("CRM", "106.CRM")]

/-- Class attribute `COINGECKO_MAP`: crypto ticker to CoinGecko coin id. -/
def COINGECKO_MAP : List (String × String) := [
  ("BTC-USD", "bitcoin"), ("ETH-USD", "ethereum"), ("SOL-USD", "solana"),
  ("BNB-USD", "binancecoin"), ("ADA-USD", "cardano"), ("DOGE-USD", "dogecoin"),
  ("XRP-USD", "ripple"), ("AVAX-USD", "avalanche-2")]

/-- Class attribute `FX_COINGECKO_MAP`. -/
def FX_COINGECKO_MAP : List (String × (String × String)) :=
  [("CNY=X", ("usd", "cny"))]

/- ═══════════ Cache keys, cached values, dictionaries ═══════════ -/

/-- Key of the `_batch_cache` dictionary.  The source keys this dictionary by
strings: a batch entry is `"t1|t2|...|tn|period|interval"` built from the
sorted ticker list, a per-ticker entry is `"ticker|single"`.  Tickers never
contain the `'|'` separator, so the string encoding is injective on this
structured form, and `rsplit('|', 2)` on a batch key recovers exactly
(joined tickers, period, interval) while a single key splits into only two
parts and is skipped by the subset scan. -/
inductive CacheKey
  | batch (tickers : List String) (period interval : String)
  | single (ticker : String)
  deriving DecidableEq, Repr

/-- Value stored in `_batch_cache`: either a single-instrument frame or a
MultiIndex frame, which we represent by its per-ticker column blocks (the
date alignment performed by `pd.concat` is abstracted: each ticker's block is
kept verbatim, which is exactly what `xs`/column selection recover). -/
inductive DF
  | flat (rows : Frame)
  | multi (panel : List (String × Frame))
  deriving DecidableEq, Repr

/-- Emptiness of a pandas frame (`df.empty`: no rows or no columns). -/
def dfIsEmpty : DF → Bool
  | .flat rows => rows.isEmpty
  | .multi panel => panel.isEmpty || panel.all (fun e => e.2.isEmpty)

/-- Association-list lookup, modelling Python `d[k]` / `k in d`. -/
def alookup {K V : Type} [DecidableEq K] : List (K × V) → K → Option V
  | [], _ => none
  | (k, v) :: rest, key => if key = k then some v else alookup rest key

/-- Python dictionary assignment `d[k] = v`: updates in place when the key
exists, otherwise appends (dictionaries preserve insertion order). -/
def dictInsert {K V : Type} [DecidableEq K] (d : List (K × V)) (key : K) (v : V) :
    List (K × V) :=
  if (alookup d key).isSome then d.map (fun p => if p.1 = key then (key, v) else p)
  else d ++ [(key, v)]

/- ═══════════ Alpha Vantage request parameters and responses ═══════════ -/

/-- Parameter dictionary of one Alpha Vantage request, as built by
`_av_get_daily` / `_av_get_crypto_daily` / `_av_get_fx_daily`.  The source
serializes the dictionary with `json.dumps(..., sort_keys=True)` as the
`_av_cache` key; that encoding is injective on this structured form. -/
inductive AVParams
  | daily (symbol : String)
  | cryptoDaily (symbol : String)
  | fxDaily (fromSym toSym : String)
  deriving DecidableEq, Repr

/-- Shape of one Alpha Vantage HTTP response as `_av_request` discriminates
it: a `'Note'` mentioning call frequency (minute-level rate limit), an
`'Error Message'`, an `'Information'` message that mentions the rate limit
(daily quota exhausted) or not, a normal payload body, or a transport
error/timeout raised by the request.  A body carrying none of the marker
keys is a `payload` (possibly with the time-series key absent). -/
inductive AVResponse
  | noteLimit
  | errorMsg
  | infoQuota
  | infoOther
  | payload (p : AVPayload)
  | netError
  deriving DecidableEq, Repr

/- ═══════════ Manager state ═══════════ -/

/-- The `_stats` counter dictionary. -/
structure Stats where
  avCalls : Nat
  avCacheHits : Nat
  yfDownloads : Nat
  yfCacheHits : Nat
  fredCalls : Nat
  akshareCalls : Nat
  errors : Nat
  deriving DecidableEq, Repr

/-- Mutable state of one `DataSourceManager` instance.  The `…Http` fields
count provider HTTP calls issued and the `…Waits` fields count `_rate_limit`
slot waits (instrumentation making "no network call, no slot wait" claims
statable); `yfRequests` logs each ticker list handed to the yfinance tier. -/
structure DSMState where
  batchCache : List (CacheKey × DF)
  avCache : List (AVParams × AVPayload)
  avRateLimited : Bool
  avConsecutiveLimits : Nat
  yfAvailable : Option Bool
  akCodeTable : List (String × String)
  stats : Stats
  avHttp : Nat
  yfHttp : Nat
  akHttp : Nat
  cgHttp : Nat
  avWaits : Nat
  yfWaits : Nat
  akWaits : Nat
  cgWaits : Nat
  yfRequests : List (List String)
  deriving DecidableEq, Repr

/-- State created by `DataSourceManager.__init__`. -/
def initState : DSMState where
  batchCache := []
  avCache := []
  avRateLimited := false
  avConsecutiveLimits := 0
  yfAvailable := none
  akCodeTable := akshareUsStaticCodes
  stats := ⟨0, 0, 0, 0, 0, 0, 0⟩
  avHttp := 0
  yfHttp := 0
  akHttp := 0
  cgHttp := 0
  avWaits := 0
  yfWaits := 0
  akWaits := 0
  cgWaits := 0
  yfRequests := []

/- ═══════════ Alpha Vantage core request (`_av_request`) ═══════════ -/

/-- Retry loop of `_av_request` (source lines 300-354), recursion on the
number of attempts left.  The oracle `avO` maps the session-wide HTTP attempt
counter to the response of that attempt.  On a minute-level rate-limit note
the consecutive-limit counter is incremented; at two the breaker opens.  A
quota `'Information'` message opens the breaker at once.  A successful body
resets the counter, is cached and returned.  Transport errors retry, and on
the final attempt count one error; the exhausted loop returns `None`. -/
def avLoop (avO : Nat → AVResponse) (params : AVParams) :
    Nat → DSMState → Option AVPayload × DSMState
  | 0, s => (none, s)
  | n + 1, s =>
    let r := avO s.avHttp
    let s1 := { s with avHttp := s.avHttp + 1 }
    match r with
    | .noteLimit =>
      let s2 := { s1 with avConsecutiveLimits := s1.avConsecutiveLimits + 1 }
      if s2.avConsecutiveLimits ≥ 2 then (none, { s2 with avRateLimited := true })
      else if n ≥ 1 then avLoop avO params n s2
      else (none, s2)
    | .errorMsg => (none, s1)
    | .infoQuota => (none, { s1 with avRateLimited := true })
    | .infoOther => (none, s1)
    | .payload p =>
      (some p, { s1 with
        avConsecutiveLimits := 0,
        avCache := dictInsert s1.avCache params p,
        stats := { s1.stats with avCalls := s1.stats.avCalls + 1 } })
    | .netError =>
      if n ≥ 1 then avLoop avO params n s1
      else (none, { s1 with stats := { s1.stats with errors := s1.stats.errors + 1 } })

/-- Model of `DataSourceManager._av_request` (source lines 282-354).  The API
key constant is non-empty, so the missing-key early return never fires.  An
open breaker short-circuits before the cache lookup, the slot wait and any
network call; a cache hit bumps `av_cache_hits` and returns the stored body;
otherwise one `_rate_limit('alpha_vantage')` wait precedes the retry loop. -/
def avRequest (avO : Nat → AVResponse) (params : AVParams) (maxRetries : Nat)
    (s : DSMState) : Option AVPayload × DSMState :=
  if s.avRateLimited then (none, s)
  else
    match alookup s.avCache params with
    | some p =>
      (some p, { s with stats := { s.stats with avCacheHits := s.stats.avCacheHits + 1 } })
    | none => avLoop avO params maxRetries { s with avWaits := s.avWaits + 1 }

/-- Daily branch of `_fetch_single_ticker_av`: request `TIME_SERIES_DAILY`
for the resolved symbol and normalize (`if data:` is payload presence; the
converter returns `None` when the time-series key is absent). -/
def avFetchDaily (avO : Nat → AVResponse) (symbol : String) (s : DSMState) :
    Except Unit (Option Frame) × DSMState :=
  let rs := avRequest avO (.daily symbol) 3 s
  match rs.1 with
  | some p => (avDailyToDf p, rs.2)
  | none => (.ok none, rs.2)

/-- Model of `DataSourceManager._fetch_single_ticker_av` (source lines
492-522): crypto tickers go through `DIGITAL_CURRENCY_DAILY`, FX tickers
through `FX_DAILY`, index tickers are replaced by their ETF proxy, and the
explicit `None` sentinel in `INDEX_TO_ETF` returns `None` without issuing
any request. -/
def fetchSingleTickerAv (avO : Nat → AVResponse) (ticker : String) (s : DSMState) :
    Except Unit (Option Frame) × DSMState :=
  match alookup CRYPTO_MAP ticker with
  | some sym =>
    let rs := avRequest avO (.cryptoDaily sym) 3 s
    match rs.1 with
    | some p => (avCryptoToDf p, rs.2)
    | none => (.ok none, rs.2)
  | none =>
    match alookup FX_MAP ticker with
    | some fromTo =>
      let rs := avRequest avO (.fxDaily fromTo.1 fromTo.2) 3 s
      match rs.1 with
      | some p => (avFxToDf p, rs.2)
      | none => (.ok none, rs.2)
    | none =>
      match alookup INDEX_TO_ETF ticker with
      | some none => (.ok none, s)
      | some (some etf) => avFetchDaily avO etf s
      | none => avFetchDaily avO ticker s

/- ═══════════ yfinance fallback tier ═══════════ -/

/-- Outcome of one `yf.download` invocation: a returned object (possibly
`None`), or an exception (import failure, network error, ...). -/
inductive YfOutcome
  | ok (df : Option DF)
  | exn
  deriving Repr

/-- Model of `DataSourceManager._yfinance_fallback` (source lines 706-733).
The ticker list handed to the tier is logged on entry.  A previously probed
unavailable yfinance short-circuits.  Otherwise one slot wait and one
download call happen; a non-empty result counts a download and (on first
probe) marks yfinance available, while an empty result or an exception marks
it unavailable when availability was still undetermined. -/
def yfFallback (yfO : List String → String → String → YfOutcome)
    (tickers : List String) (period interval : String) (s : DSMState) :
    Option DF × DSMState :=
  let s0 := { s with yfRequests := s.yfRequests ++ [tickers] }
  if s0.yfAvailable = some false then (none, s0)
  else
    let s1 := { s0 with yfWaits := s0.yfWaits + 1, yfHttp := s0.yfHttp + 1 }
    match yfO tickers period interval with
    | .ok (some df) =>
      if dfIsEmpty df then
        (none, if s1.yfAvailable = none then { s1 with yfAvailable := some false } else s1)
      else
        let s2 := { s1 with stats := { s1.stats with yfDownloads := s1.stats.yfDownloads + 1 } }
        (some df, if s2.yfAvailable = none then { s2 with yfAvailable := some true } else s2)
    | .ok none =>
      (none, if s1.yfAvailable = none then { s1 with yfAvailable := some false } else s1)
    | .exn =>
      let s2 := { s1 with stats := { s1.stats with errors := s1.stats.errors + 1 } }
      (none, if s2.yfAvailable = none then { s2 with yfAvailable := some false } else s2)

/-- Model of `DataSourceManager.get_closes` (source lines 1348-1377): safely
extract the close-price array for one ticker from a download result.  The
`dropna()` is the identity here because a yfinance column with no data is
modelled as an empty row list. -/
def getCloses (data : Option DF) (ticker : String) : Option (List Px) :=
  match data with
  | none => none
  | some df =>
    if dfIsEmpty df then none
    else
      match df with
      | .multi panel =>
        let level1 := panel.map Prod.fst
        let arr : Option (List Px) :=
          if ticker ∈ level1 then
            (alookup panel ticker).map (fun rows => rows.map Row.c)
          else if level1.length = 1 then
            match panel with
            | e :: _ => some (e.2.map Row.c)
            | [] => none
          else
            match alookup INDEX_TO_ETF ticker with
            | some (some etf) =>
              if etf ∈ level1 then (alookup panel etf).map (fun rows => rows.map Row.c)
              else none
            | _ => none
        match arr with
        | some l => if l.isEmpty then none else some l
        | none => none
      | .flat rows =>
        let l := rows.map Row.c
        if l.isEmpty then none else some l

/- ═══════════ Period handling ═══════════ -/

/-- Python `int(str)`: optional sign and digits after stripping whitespace;
anything else raises `ValueError`. -/
def pyParseInt (cs : List Char) : Except Unit Int :=
  let body := pyStrip cs
  let signed : Int × List Char :=
    match body with
    | '-' :: r => (-1, r)
    | '+' :: r => (1, r)
    | r => (1, r)
  if signed.2.isEmpty || !(signed.2.all (·.isDigit)) then .error ()
  else .ok (signed.1 * (natOfDigits signed.2 : Int))

/-- Model of `DataSourceManager._period_to_days` (source lines 695-704):
yfinance-style period token to a trading-day count; an unrecognized suffix
defaults to 66 (three months), a recognized suffix with a non-numeric body
raises `ValueError`. -/
def periodToDays (period : String) : Except Unit Int :=
  let p := pyStrip (period.data.map Char.toLower)
  match p.reverse with
  | 'o' :: 'm' :: restRev => do
    let n ← pyParseInt restRev.reverse
    pure (n * 22)
  | 'd' :: restRev => pyParseInt restRev.reverse
  | 'y' :: restRev => do
    let n ← pyParseInt restRev.reverse
    pure (n * 252)
  | _ => pure 66

/-- Tail truncation `df.iloc[-period_days:]`, applied only when the frame is
longer than the requested day count. -/
def truncTail (periodDays : Int) (rows : Frame) : Frame :=
  if periodDays > 0 && (rows.length : Int) > periodDays then
    rows.drop (rows.length - periodDays.toNat)
  else rows

/- ═══════════ AkShare / CoinGecko fallback tier ═══════════ -/

/-- Test `ticker.startswith('^')`. -/
def startsWithCaret (t : String) : Bool :=
  match t.data with
  | '^' :: _ => true
  | [] => false
  | _ :: _ => false

/-- Removal of every `-USD` substring. -/
def removeDashUsd : List Char → List Char
  | '-' :: 'U' :: 'S' :: 'D' :: rest => removeDashUsd rest
  | ch :: rest => ch :: removeDashUsd rest
  | [] => []

/-- Python `ticker.replace('-USD', '').lower()` for the compatibility branch
of `_coingecko_fallback`. -/
def stripUsdLower (t : String) : String :=
  String.mk ((removeDashUsd t.data).map Char.toLower)

/-- The `simple_map` of `_coingecko_fallback`: short crypto code to coin id,
defaulting to the code itself. -/
def simpleCoinId (code : String) : String :=
  match alookup [("btc", "bitcoin"), ("eth", "ethereum"), ("sol", "solana")] code with
  | some cid => cid
  | none => code

/-- Probe loop of `_get_akshare_us_code` (source lines 818-829): try the
`106`/`105`/`107` code spaces in order against the AkShare endpoint (one
HTTP call each, no slot wait), memoizing the first code that returns data.
The oracle `akNet` maps a prefixed code to the normalized frame the endpoint
returns, `none` standing for both an empty result and a raised exception. -/
def probeAkCodes (akNet : String → Option Frame) (t : String) :
    List String → DSMState → Option String × DSMState
  | [], s => (none, s)
  | pre :: rest, s =>
    let code := pre ++ "." ++ t
    let s1 := { s with akHttp := s.akHttp + 1 }
    match akNet code with
    | some rows =>
      if rows.length > 0 then
        (some code, { s1 with akCodeTable := dictInsert s1.akCodeTable t code })
      else probeAkCodes akNet t rest s1
    | none => probeAkCodes akNet t rest s1

/-- Model of `DataSourceManager._get_akshare_us_code` (source lines 812-829):
static table first, then the dynamic probe; `none` models the empty-string
"no code" result. -/
def getAkshareUsCode (akNet : String → Option Frame) (t : String) (s : DSMState) :
    Option String × DSMState :=
  match alookup s.akCodeTable t with
  | some code => (some code, s)
  | none => probeAkCodes akNet t ["106", "105", "107"] s

/-- Model of `DataSourceManager._coingecko_fetch_coin` (source lines
887-950).  The HTTP call, JSON decoding and OHLC estimation from adjacent
closes are absorbed into the oracle `cgNet`, which returns the final
normalized frame (or `none` for any of the error paths).  One slot wait and
one HTTP call are counted; a non-empty frame reuses the `akshare_calls`
counter as the source does. -/
def coingeckoFetchCoin (cgNet : String → Option Frame) (coinId : String)
    (s : DSMState) : Option Frame × DSMState :=
  let s1 := { s with cgWaits := s.cgWaits + 1, cgHttp := s.cgHttp + 1 }
  match cgNet coinId with
  | some df =>
    if df.length > 0 then
      (some df, { s1 with stats := { s1.stats with akshareCalls := s1.stats.akshareCalls + 1 } })
    else (some df, s1)
  | none => (none, s1)

/-- Model of `DataSourceManager._coingecko_fetch_fx` (source lines 952-997):
the tether proxy request, keyed in the oracle by `tether-<quote>`. -/
def coingeckoFetchFx (cgNet : String → Option Frame) (t : String) (s : DSMState) :
    Option Frame × DSMState :=
  match alookup FX_COINGECKO_MAP t with
  | some pair =>
    let s1 := { s with cgWaits := s.cgWaits + 1, cgHttp := s.cgHttp + 1 }
    match cgNet ("tether-" ++ pair.2) with
    | some df => (some df, s1)
    | none => (none, s1)
  | none => (none, s)

/-- Model of `DataSourceManager._coingecko_fallback` (source lines 862-885). -/
def coingeckoFallback (cgNet : String → Option Frame) (t : String) (s : DSMState) :
    Option Frame × DSMState :=
  match alookup COINGECKO_MAP t with
  | some coinId => coingeckoFetchCoin cgNet coinId s
  | none =>
    if (alookup FX_COINGECKO_MAP t).isSome then coingeckoFetchFx cgNet t s
    else
      match alookup CRYPTO_MAP t with
      | some _ => coingeckoFetchCoin cgNet (simpleCoinId (stripUsdLower t)) s
      | none => (none, s)

/-- Per-ticker loop of `_akshare_us_fallback` (source lines 747-809): index
tickers go through their ETF proxy (stored under the original index ticker),
crypto/FX tickers through CoinGecko, others through the resolved AkShare
code; each AkShare fetch is one slot wait plus one HTTP call, results are
truncated to the period and collected in order. -/
def akFallbackLoop (akNet cgNet : String → Option Frame) (periodDays : Int) :
    List String → List (String × Frame) → DSMState →
    List (String × Frame) × DSMState
  | [], res, s => (res, s)
  | t :: ts, res, s =>
    if startsWithCaret t then
      match alookup INDEX_TO_ETF t with
      | some (some etf) =>
        let cs := getAkshareUsCode akNet etf s
        match cs.1 with
        | some code =>
          let s2 := { cs.2 with akWaits := cs.2.akWaits + 1, akHttp := cs.2.akHttp + 1 }
          match akNet code with
          | some rows =>
            if rows.length > 0 then
              akFallbackLoop akNet cgNet periodDays ts
                (res ++ [(t, truncTail periodDays rows)])
                { s2 with stats := { s2.stats with akshareCalls := s2.stats.akshareCalls + 1 } }
            else akFallbackLoop akNet cgNet periodDays ts res s2
          | none => akFallbackLoop akNet cgNet periodDays ts res s2
        | none => akFallbackLoop akNet cgNet periodDays ts res cs.2
      | _ => akFallbackLoop akNet cgNet periodDays ts res s
    else if (alookup CRYPTO_MAP t).isSome || (alookup FX_MAP t).isSome then
      let cg := coingeckoFallback cgNet t s
      match cg.1 with
      | some df => akFallbackLoop akNet cgNet periodDays ts (res ++ [(t, df)]) cg.2
      | none => akFallbackLoop akNet cgNet periodDays ts res cg.2
    else
      let cs := getAkshareUsCode akNet t s
      match cs.1 with
      | some code =>
        let s2 := { cs.2 with akWaits := cs.2.akWaits + 1, akHttp := cs.2.akHttp + 1 }
        match akNet code with
        | some rows =>
          if rows.length > 0 then
            akFallbackLoop akNet cgNet periodDays ts
              (res ++ [(t, truncTail periodDays rows)])
              { s2 with stats := { s2.stats with akshareCalls := s2.stats.akshareCalls + 1 } }
          else akFallbackLoop akNet cgNet periodDays ts res s2
        | none => akFallbackLoop akNet cgNet periodDays ts res s2
      | none => akFallbackLoop akNet cgNet periodDays ts res cs.2

/-- Model of `DataSourceManager._akshare_us_fallback` (source lines 737-810):
recomputes the day count from the period token (defaulting to 90 when it is
non-positive) and walks the ticker list. -/
def akshareUsFallback (akNet cgNet : String → Option Frame)
    (tickers : List String) (period : String) (s : DSMState) :
    Except Unit (List (String × Frame) × DSMState) := do
  let pd ← periodToDays period
  let periodDays := if pd ≤ 0 then 90 else pd
  pure (akFallbackLoop akNet cgNet periodDays tickers [] s)

/- ═══════════ download_prices ═══════════ -/

/-- Batch cache key of a request (source line 536): the sorted ticker list
joined with the period and interval. -/
def batchKeyOf (tickerList : List String) (period interval : String) : CacheKey :=
  .batch tickerList period interval

/-- Cache-hit bookkeeping: every price-cache hit bumps `av_cache_hits`. -/
def bumpHits (s : DSMState) : DSMState :=
  { s with stats := { s.stats with avCacheHits := s.stats.avCacheHits + 1 } }

/-- Subset scan of the batch cache (source lines 543-573): walk the cache in
insertion order; per-ticker `|single` keys split into two parts and are
skipped; a batch entry matches when its period and interval equal the
request and its ticker set contains the requested set.  A matching
MultiIndex entry is projected onto the requested tickers (`xs` for a
single-ticker request, column selection otherwise, both stored back under
the request's batch key, signalled by the returned flag); a matching flat
entry is returned as-is for a single-ticker request without a store.  Any
branch that does not return continues the scan (the `except: pass`). -/
def subsetScan (tickerList : List String) (period interval : String) :
    List (CacheKey × DF) → Option (Bool × DF)
  | [] => none
  | (key, data) :: rest =>
    match key with
    | .single _ => subsetScan tickerList period interval rest
    | .batch cts p i =>
      if p = period && i = interval && tickerList.all (· ∈ cts) then
        match data with
        | .multi panel =>
          let available := panel.map Prod.fst
          let found := tickerList.filter (· ∈ available)
          if !found.isEmpty then
            match tickerList with
            | [t] =>
              if t ∈ available then
                match alookup panel t with
                | some rows => some (true, .flat rows)
                | none => subsetScan tickerList period interval rest
              else subsetScan tickerList period interval rest
            | _ =>
              let sub := panel.filter (fun e => e.1 ∈ found)
              if !dfIsEmpty (.multi sub) then some (true, .multi sub)
              else subsetScan tickerList period interval rest
          else subsetScan tickerList period interval rest
        | .flat rows =>
          match tickerList with
          | [_] => some (false, .flat rows)
          | _ => subsetScan tickerList period interval rest
      else subsetScan tickerList period interval rest

/-- Cache-miss part of one Alpha Vantage loop iteration (source lines
598-616): the `INDEX_TO_ETF` `None` sentinel and an already-open breaker
send the ticker to the failed list without any request; otherwise the ticker
is fetched, and a non-empty frame is truncated to the period, collected, and
cached under its `|single` key. -/
def avStepMiss (avO : Nat → AVResponse) (periodDays : Int) (t : String)
    (dfs : List (String × Frame)) (failed : List String) (s : DSMState) :
    Except Unit (List (String × Frame) × List String × DSMState) :=
  if alookup INDEX_TO_ETF t = some none then .ok (dfs, failed ++ [t], s)
  else if s.avRateLimited then .ok (dfs, failed ++ [t], s)
  else
    let rs := fetchSingleTickerAv avO t s
    match rs.1 with
    | .error e => .error e
    | .ok (some df) =>
      if df.length > 0 then
        let df1 := truncTail periodDays df
        .ok (dictInsert dfs t df1, failed,
          { rs.2 with batchCache := dictInsert rs.2.batchCache (.single t) (.flat df1) })
      else .ok (dfs, failed ++ [t], rs.2)
    | .ok none => .ok (dfs, failed ++ [t], rs.2)

/-- One iteration of the Alpha Vantage loop body for ticker `t` (source lines
589-616): a non-empty `|single` cache entry is a hit (single-key entries are
always flat by construction; a MultiIndex value under a single key is treated
as no hit), otherwise `avStepMiss` runs the sentinel check, the breaker check
and the fetch. -/
def avStep (avO : Nat → AVResponse) (periodDays : Int) (t : String)
    (dfs : List (String × Frame)) (failed : List String) (s : DSMState) :
    Except Unit (List (String × Frame) × List String × DSMState) :=
  match alookup s.batchCache (.single t) with
  | some (.flat rows) =>
    if rows.length > 0 then .ok (dictInsert dfs t rows, failed, bumpHits s)
    else avStepMiss avO periodDays t dfs failed s
  | some (.multi _) => avStepMiss avO periodDays t dfs failed s
  | none => avStepMiss avO periodDays t dfs failed s

/-- Per-ticker Alpha Vantage phase of `download_prices` (source lines
588-616): `avStep` applied to each ticker of the sorted list in order,
accumulating collected frames and failed tickers. -/
def avPhase (avO : Nat → AVResponse) (periodDays : Int) :
    List String → List (String × Frame) → List String → DSMState →
    Except Unit (List (String × Frame) × List String × DSMState)
  | [], dfs, failed, s => .ok (dfs, failed, s)
  | t :: ts, dfs, failed, s =>
    match avStep avO periodDays t dfs failed s with
    | .error e => .error e
    | .ok acc => avPhase avO periodDays ts acc.1 acc.2.1 acc.2.2

/-- Extraction loop over the yfinance batch result (source lines 623-639):
for each failed ticker whose closes are extractable, the per-ticker block of
a MultiIndex result (or the whole flat result) is collected, cached under the
`|single` key, and the ticker is removed from the still-failed list. -/
def yfExtractPhase (yfRes : DF) :
    List String → List (String × Frame) → List String → DSMState →
    List (String × Frame) × List String × DSMState
  | [], dfs, still, s => (dfs, still, s)
  | t :: ts, dfs, still, s =>
    if (getCloses (some yfRes) t).isSome then
      match yfRes with
      | .multi panel =>
        if t ∈ panel.map Prod.fst then
          match alookup panel t with
          | some rows =>
            yfExtractPhase yfRes ts (dictInsert dfs t rows) (still.erase t)
              { s with batchCache := dictInsert s.batchCache (.single t) (.flat rows) }
          | none => yfExtractPhase yfRes ts dfs still s
        else yfExtractPhase yfRes ts dfs still s
      | .flat rows =>
        yfExtractPhase yfRes ts (dictInsert dfs t rows) (still.erase t)
          { s with batchCache := dictInsert s.batchCache (.single t) (.flat rows) }
    else yfExtractPhase yfRes ts dfs still s

/-- Merge loop over the AkShare-tier results (source lines 644-647): each
non-empty frame is collected and cached under its `|single` key. -/
def akMergePhase :
    List (String × Frame) → List (String × Frame) → DSMState →
    List (String × Frame) × DSMState
  | [], dfs, s => (dfs, s)
  | (t, rows) :: rest, dfs, s =>
    if rows.length > 0 then
      akMergePhase rest (dictInsert dfs t rows)
        { s with batchCache := dictInsert s.batchCache (.single t) (.flat rows) }
    else akMergePhase rest dfs s

/-- Model of `DataSourceManager._merge_to_multiindex` (source lines 664-693):
the per-ticker frames become the column blocks of one MultiIndex frame; the
outer-join date alignment of `pd.concat` is abstracted, each block being kept
verbatim. -/
def mergeToMulti (dfs : List (String × Frame)) : Option DF :=
  if dfs.isEmpty then none else some (.multi dfs)

/-- Result of one `download_prices` call: the returned object (`None` or a
frame) plus the post-state. -/
structure DPRet where
  result : Option DF
  s : DSMState
  deriving DecidableEq, Repr

/-- Final assembly of `download_prices` (source lines 649-662): no collected
frame returns `None`; exactly one collected frame is returned flat; more are
merged into a MultiIndex frame; a non-`None`, non-empty result is stored
under the request's batch key. -/
def assembleResult (bkey : CacheKey) (dfs : List (String × Frame)) (s : DSMState) : DPRet :=
  match dfs with
  | [] => ⟨none, s⟩
  | [e] =>
    let df := DF.flat e.2
    if !dfIsEmpty df then ⟨some df, { s with batchCache := dictInsert s.batchCache bkey df }⟩
    else ⟨some df, s⟩
  | _ =>
    match mergeToMulti dfs with
    | some df =>
      if !dfIsEmpty df then ⟨some df, { s with batchCache := dictInsert s.batchCache bkey df }⟩
      else ⟨some df, s⟩
    | none => ⟨none, s⟩

/-- yfinance stage of `download_prices` (source lines 618-639): when some
tickers failed the Alpha Vantage tier, one batched download is attempted and
its result, if any, is distributed by `yfExtractPhase`. -/
def dpYfStage (yfO : List String → String → String → YfOutcome)
    (avFailed : List String) (dfs : List (String × Frame))
    (period interval : String) (s1 : DSMState) :
    List (String × Frame) × List String × DSMState :=
  if avFailed.isEmpty then (dfs, avFailed, s1)
  else
    let yfRun := yfFallback yfO avFailed period interval s1
    match yfRun.1 with
    | some ydf => yfExtractPhase ydf avFailed dfs avFailed yfRun.2
    | none => (dfs, avFailed, yfRun.2)

/-- AkShare stage of `download_prices` (source lines 641-647): tickers still
failed after yfinance go through the AkShare/CoinGecko fallback and its
non-empty results are merged in. -/
def dpAkStage (akNet cgNet : String → Option Frame) (still : List String)
    (dfs2 : List (String × Frame)) (period : String) (s2 : DSMState) :
    Except Unit (List (String × Frame) × DSMState) :=
  if still.isEmpty then .ok (dfs2, s2)
  else
    match akshareUsFallback akNet cgNet still period s2 with
    | .error e => .error e
    | .ok akRun => .ok (akMergePhase akRun.1 dfs2 akRun.2)

/-- Cache-miss path of `download_prices` (source lines 582-662): the Alpha
Vantage per-ticker walk, the batched yfinance fallback with extraction, the
AkShare/CoinGecko fallback, and the final assembly and batch-cache write. -/
def dpTierWalk (avO : Nat → AVResponse)
    (yfO : List String → String → String → YfOutcome)
    (akNet cgNet : String → Option Frame)
    (tickerList : List String) (period interval : String) (s : DSMState) :
    Except Unit DPRet :=
  match periodToDays period with
  | .error e => .error e
  | .ok periodDays =>
    match avPhase avO periodDays tickerList [] [] s with
    | .error e => .error e
    | .ok step1 =>
      let step2 := dpYfStage yfO step1.2.1 step1.1 period interval step1.2.2
      match dpAkStage akNet cgNet step2.2.1 step2.1 period step2.2.2 with
      | .error e => .error e
      | .ok fin =>
        .ok (assembleResult (batchKeyOf tickerList period interval) fin.1 fin.2)

/-- Model of `DataSourceManager.download_prices` (source lines 524-662).
The request string is whitespace-split and sorted; the exact batch key, the
subset scan and (for single-ticker requests) the windowless `|single` key are
consulted in that order; remaining work walks the provider tiers via
`dpTierWalk`.  `avO`, `yfO`, `akNet` and `cgNet` are the network oracles of
the four providers. -/
def downloadPrices (avO : Nat → AVResponse)
    (yfO : List String → String → String → YfOutcome)
    (akNet cgNet : String → Option Frame)
    (tickers period interval : String) (s : DSMState) : Except Unit DPRet :=
  let tickerList := pySorted (pySplitWs tickers)
  let bkey := batchKeyOf tickerList period interval
  match alookup s.batchCache bkey with
  | some df => .ok ⟨some df, bumpHits s⟩
  | none =>
    match subsetScan tickerList period interval s.batchCache with
    | some (store, df) =>
      if store then
        .ok ⟨some df, bumpHits { s with batchCache := dictInsert s.batchCache bkey df }⟩
      else .ok ⟨some df, bumpHits s⟩
    | none =>
      let singleHit : Option DF :=
        match tickerList with
        | [t] => alookup s.batchCache (.single t)
        | _ => none
      match singleHit with
      | some df => .ok ⟨some df, bumpHits s⟩
      | none => dpTierWalk avO yfO akNet cgNet tickerList period interval s

/- ═══════════ Shared test fixtures (concrete oracles) ═══════════ -/

/-- Fully parsable daily entry used by concrete scenarios. -/
def goodEntry : AVEntry := ⟨some "1", some "2", some "0.5", some "1.5", some "100"⟩

/-- Daily payload with three parsable rows. -/
def goodPayload : AVPayload :=
  .daily (some [(1, goodEntry), (2, goodEntry), (3, goodEntry)])

/-- Frame produced by normalizing `goodPayload`. -/
def goodFrame : Frame :=
  [⟨1, ⟨1, 1⟩, ⟨2, 1⟩, ⟨5, 10⟩, ⟨15, 10⟩, ⟨100, 1⟩⟩,
   ⟨2, ⟨1, 1⟩, ⟨2, 1⟩, ⟨5, 10⟩, ⟨15, 10⟩, ⟨100, 1⟩⟩,
   ⟨3, ⟨1, 1⟩, ⟨2, 1⟩, ⟨5, 10⟩, ⟨15, 10⟩, ⟨100, 1⟩⟩]

/-- Alpha Vantage oracle answering every attempt with `goodPayload`. -/
def avAllGood : Nat → AVResponse := fun _ => .payload goodPayload

/-- yfinance oracle whose download always returns `None`. -/
def yfNoneO : List String → String → String → YfOutcome := fun _ _ _ => .ok none

/-- AkShare / CoinGecko oracle that never returns data. -/
def akNoneO : String → Option Frame := fun _ => none

/- ═══════════ Normalizer lemmas ═══════════ -/

theorem rowOfDaily_date {d : Nat} {e : AVEntry} {r : Row}
    (h : rowOfDaily d e = .ok r) : r.date = d := by
  unfold rowOfDaily at h
  split at h
  · cases h; rfl
  · cases h

theorem rowsOfDaily_dates {ts : List (Nat × AVEntry)} {rows : List Row}
    (h : rowsOfDaily ts = .ok rows) : rows.map Row.date = ts.map Prod.fst := by
  induction ts generalizing rows with
  | nil => cases h; rfl
  | cons de rest ih =>
    unfold rowsOfDaily at h
    split at h
    next r rs hr hrs =>
      cases h
      simp only [List.map_cons]
      rw [rowOfDaily_date hr, ih hrs]
    next => cases h
    next => cases h

theorem avDailyToDf_ok_some {ts : List (Nat × AVEntry)} {f : Frame}
    (h : avDailyToDf (.daily (some ts)) = .ok (some f)) :
    ∃ rows, rowsOfDaily ts = .ok rows ∧ rows.isEmpty = false ∧ f = sortByDate rows := by
  simp only [avDailyToDf] at h
  cases hm : rowsOfDaily ts with
  | error u => rw [hm] at h; dsimp only at h; cases h
  | ok rows =>
    rw [hm] at h
    dsimp only at h
    by_cases he : rows.isEmpty
    · rw [if_pos he] at h; cases h
    · rw [if_neg he] at h
      refine ⟨rows, rfl, by simpa using he, ?_⟩
      injection h with h1
      injection h1 with h2
      exact h2.symm

/- ═══════════ Claim C9 ═══════════ -/

/-- C9 counterexample: the claim "rows with unparsable values are dropped
rather than stored with NaN or placeholder values" is false.  A payload row
whose `'1. open'` key is missing is not dropped: it is stored with the
placeholder open price `0` (Python `float(vals.get('1. open', 0))`). -/
theorem C9_counterexample :
    avDailyToDf (.daily (some [(5, ⟨none, some "2", some "1", some "1.5", some "10"⟩)])) =
      .ok (some [⟨5, ⟨0, 1⟩, ⟨2, 1⟩, ⟨1, 1⟩, ⟨15, 10⟩, ⟨10, 1⟩⟩]) := by decide

/-- C9 (amended): every frame `_av_daily_to_df` produces is sorted ascending
by date, with at most one row per date when the payload dates are distinct;
however a row with a missing numeric field is stored with a `0` placeholder
rather than dropped, and an unparsable numeric value raises an error that
aborts the whole conversion rather than dropping the affected row. -/
theorem C9_amended_frame_shape :
    (∀ (ts : List (Nat × AVEntry)) (f : Frame),
        avDailyToDf (.daily (some ts)) = .ok (some f) →
        f.Sorted rowLe ∧ ((ts.map Prod.fst).Nodup → (f.map Row.date).Nodup)) ∧
    avDailyToDf (.daily (some [(7, ⟨none, some "3", some "1", some "2", none⟩)])) =
      .ok (some [⟨7, ⟨0, 1⟩, ⟨3, 1⟩, ⟨1, 1⟩, ⟨2, 1⟩, ⟨0, 1⟩⟩]) ∧
    avDailyToDf (.daily (some [(1, ⟨some "abc", some "1", some "1", some "1", some "1"⟩)])) =
      .error () := by
  refine ⟨?_, by decide, by decide⟩
  intro ts f h
  obtain ⟨rows, hrows, -, hf⟩ := avDailyToDf_ok_some h
  subst hf
  constructor
  · exact List.sorted_insertionSort rowLe rows
  · intro hnd
    have hperm : List.Perm ((sortByDate rows).map Row.date) (rows.map Row.date) :=
      (List.perm_insertionSort rowLe rows).map Row.date
    rw [hperm.nodup_iff, rowsOfDaily_dates hrows]
    exact hnd

/- ═══════════ State-preservation lemmas ═══════════ -/

/-- Observation of the Alpha Vantage breaker and call-accounting fields. -/
def avFieldsOf (s : DSMState) : Bool × Nat × Nat × Nat :=
  (s.avRateLimited, s.avConsecutiveLimits, s.avHttp, s.avWaits)

theorem bumpHits_avFields (s : DSMState) : avFieldsOf (bumpHits s) = avFieldsOf s := rfl

theorem yfFallback_avFields (yfO : List String → String → String → YfOutcome)
    (ts : List String) (p i : String) (s : DSMState) :
    avFieldsOf (yfFallback yfO ts p i s).2 = avFieldsOf s := by
  unfold yfFallback
  dsimp only
  repeat' split
  all_goals rfl

theorem yfFallback_batchCache (yfO : List String → String → String → YfOutcome)
    (ts : List String) (p i : String) (s : DSMState) :
    (yfFallback yfO ts p i s).2.batchCache = s.batchCache := by
  unfold yfFallback
  dsimp only
  repeat' split
  all_goals rfl

theorem yfExtractPhase_avFields (ydf : DF) (ts : List String)
    (dfs : List (String × Frame)) (still : List String) (s : DSMState) :
    avFieldsOf (yfExtractPhase ydf ts dfs still s).2.2 = avFieldsOf s := by
  induction ts generalizing dfs still s with
  | nil => rfl
  | cons t rest ih =>
    unfold yfExtractPhase
    try dsimp only
    repeat' split
    all_goals (rw [ih] <;> rfl)

theorem probeAkCodes_avFields (akNet : String → Option Frame) (t : String)
    (pres : List String) (s : DSMState) :
    avFieldsOf (probeAkCodes akNet t pres s).2 = avFieldsOf s := by
  induction pres generalizing s with
  | nil => rfl
  | cons pre rest ih =>
    unfold probeAkCodes
    try dsimp only
    repeat' split
    all_goals first | rfl | (rw [ih] <;> rfl)

theorem getAkshareUsCode_avFields (akNet : String → Option Frame) (t : String)
    (s : DSMState) :
    avFieldsOf (getAkshareUsCode akNet t s).2 = avFieldsOf s := by
  unfold getAkshareUsCode
  try dsimp only
  split
  · rfl
  · exact probeAkCodes_avFields _ _ _ _

theorem coingeckoFetchCoin_avFields (cgNet : String → Option Frame) (cid : String)
    (s : DSMState) :
    avFieldsOf (coingeckoFetchCoin cgNet cid s).2 = avFieldsOf s := by
  unfold coingeckoFetchCoin
  try dsimp only
  repeat' split
  all_goals rfl

theorem coingeckoFetchFx_avFields (cgNet : String → Option Frame) (t : String)
    (s : DSMState) :
    avFieldsOf (coingeckoFetchFx cgNet t s).2 = avFieldsOf s := by
  unfold coingeckoFetchFx
  try dsimp only
  repeat' split
  all_goals rfl

theorem coingeckoFallback_avFields (cgNet : String → Option Frame) (t : String)
    (s : DSMState) :
    avFieldsOf (coingeckoFallback cgNet t s).2 = avFieldsOf s := by
  unfold coingeckoFallback
  try dsimp only
  repeat' split
  all_goals first
    | rfl
    | exact coingeckoFetchCoin_avFields _ _ _
    | exact coingeckoFetchFx_avFields _ _ _

theorem akFallbackLoop_avFields (akNet cgNet : String → Option Frame)
    (pd : Int) (ts : List String) (res : List (String × Frame)) (s : DSMState) :
    avFieldsOf (akFallbackLoop akNet cgNet pd ts res s).2 = avFieldsOf s := by
  induction ts generalizing res s with
  | nil => rfl
  | cons t rest ih =>
    unfold akFallbackLoop
    try dsimp only
    repeat' split
    all_goals (rw [ih] <;> first
      | rfl
      | exact getAkshareUsCode_avFields _ _ _
      | exact coingeckoFallback_avFields _ _ _)

theorem akMergePhase_avFields (akRes dfs : List (String × Frame)) (s : DSMState) :
    avFieldsOf (akMergePhase akRes dfs s).2 = avFieldsOf s := by
  induction akRes generalizing dfs s with
  | nil => rfl
  | cons e rest ih =>
    unfold akMergePhase
    try dsimp only
    repeat' split
    all_goals (rw [ih] <;> rfl)

theorem assembleResult_avFields (bkey : CacheKey) (dfs : List (String × Frame))
    (s : DSMState) : avFieldsOf (assembleResult bkey dfs s).s = avFieldsOf s := by
  unfold assembleResult
  try dsimp only
  repeat' split
  all_goals rfl

/- ═══════════ Alpha Vantage breaker lemmas ═══════════ -/

theorem avLoop_flag_mono (avO : Nat → AVResponse) (params : AVParams) (n : Nat)
    (s : DSMState) (h : s.avRateLimited = true) :
    ((avLoop avO params n s).2).avRateLimited = true := by
  induction n generalizing s with
  | zero => exact h
  | succ n ih =>
    unfold avLoop
    try dsimp only
    repeat' split
    all_goals first | rfl | exact h | exact ih _ h

theorem avRequest_open (avO : Nat → AVResponse) (params : AVParams) (m : Nat)
    (s : DSMState) (h : s.avRateLimited = true) :
    avRequest avO params m s = (none, s) := by
  unfold avRequest
  rw [if_pos h]

theorem avRequest_flag_mono (avO : Nat → AVResponse) (params : AVParams) (m : Nat)
    (s : DSMState) (h : s.avRateLimited = true) :
    ((avRequest avO params m s).2).avRateLimited = true := by
  rw [avRequest_open avO params m s h]
  exact h

theorem fetchSingleTickerAv_flag_mono (avO : Nat → AVResponse) (t : String)
    (s : DSMState) (h : s.avRateLimited = true) :
    ((fetchSingleTickerAv avO t s).2).avRateLimited = true := by
  unfold fetchSingleTickerAv avFetchDaily
  try dsimp only
  repeat' split
  all_goals first
    | exact h
    | exact avRequest_flag_mono avO _ 3 s h

theorem avStep_flag_mono (avO : Nat → AVResponse) (pd : Int) (t : String)
    (dfs : List (String × Frame)) (failed : List String) (s : DSMState)
    (acc : List (String × Frame) × List String × DSMState)
    (h : avStep avO pd t dfs failed s = .ok acc)
    (hflag : s.avRateLimited = true) : acc.2.2.avRateLimited = true := by
  unfold avStep avStepMiss at h
  try dsimp only at h
  repeat' split at h
  all_goals cases h
  all_goals first
    | exact hflag
    | exact fetchSingleTickerAv_flag_mono avO t s hflag

theorem avPhase_flag_mono (avO : Nat → AVResponse) (pd : Int)
    (ts : List String) (dfs : List (String × Frame)) (failed : List String)
    (s : DSMState) (dfs' : List (String × Frame)) (f' : List String) (s' : DSMState)
    (h : avPhase avO pd ts dfs failed s = .ok (dfs', f', s'))
    (hflag : s.avRateLimited = true) : s'.avRateLimited = true := by
  induction ts generalizing dfs failed s with
  | nil =>
    cases h
    exact hflag
  | cons t rest ih =>
    unfold avPhase at h
    split at h
    · cases h
    next acc hstep =>
      exact ih _ _ _ h (avStep_flag_mono avO pd t dfs failed s acc hstep hflag)

theorem avFieldsOf_flag {s s' : DSMState} (h : avFieldsOf s' = avFieldsOf s) :
    s'.avRateLimited = s.avRateLimited :=
  congrArg (fun q => q.1) h

theorem dpYfStage_flag (yfO : List String → String → String → YfOutcome)
    (avFailed : List String) (dfs : List (String × Frame)) (p i : String)
    (s1 : DSMState) :
    (dpYfStage yfO avFailed dfs p i s1).2.2.avRateLimited = s1.avRateLimited := by
  unfold dpYfStage
  try dsimp only
  split
  · rfl
  · split
    · rw [avFieldsOf_flag (yfExtractPhase_avFields _ avFailed dfs avFailed
        (yfFallback yfO avFailed p i s1).2)]
      exact avFieldsOf_flag (yfFallback_avFields yfO avFailed p i s1)
    · exact avFieldsOf_flag (yfFallback_avFields yfO avFailed p i s1)

theorem akshareUsFallback_flag (akNet cgNet : String → Option Frame)
    (still : List String) (p : String) (s2 : DSMState) (x : List (String × Frame) × DSMState)
    (h : akshareUsFallback akNet cgNet still p s2 = .ok x) :
    x.2.avRateLimited = s2.avRateLimited := by
  unfold akshareUsFallback at h
  cases hpd : periodToDays p with
  | error u => rw [hpd] at h; cases h
  | ok pd =>
    rw [hpd] at h
    dsimp only [Except.bind, bind, pure, Except.pure] at h
    cases h
    exact avFieldsOf_flag (akFallbackLoop_avFields akNet cgNet
      (if pd ≤ 0 then 90 else pd) still [] s2)

theorem dpAkStage_flag (akNet cgNet : String → Option Frame)
    (still : List String) (dfs2 : List (String × Frame)) (p : String)
    (s2 : DSMState) (fin : List (String × Frame) × DSMState)
    (h : dpAkStage akNet cgNet still dfs2 p s2 = .ok fin) :
    fin.2.avRateLimited = s2.avRateLimited := by
  unfold dpAkStage at h
  split at h
  · cases h; rfl
  · split at h
    · cases h
    next akRun hak =>
      cases h
      rw [avFieldsOf_flag (akMergePhase_avFields akRun.1 dfs2 akRun.2)]
      exact akshareUsFallback_flag akNet cgNet still p s2 akRun hak

theorem dpTierWalk_flag_mono (avO : Nat → AVResponse)
    (yfO : List String → String → String → YfOutcome)
    (akNet cgNet : String → Option Frame) (tl : List String) (p i : String)
    (s : DSMState) (r : DPRet)
    (h : dpTierWalk avO yfO akNet cgNet tl p i s = .ok r)
    (hflag : s.avRateLimited = true) : r.s.avRateLimited = true := by
  unfold dpTierWalk at h
  split at h
  · cases h
  next pd hpd =>
    split at h
    · cases h
    next step1 hav =>
      try dsimp only at h
      split at h
      · cases h
      next fin hak =>
        cases h
        have h1 : step1.2.2.avRateLimited = true :=
          avPhase_flag_mono avO pd tl [] [] s step1.1 step1.2.1 step1.2.2
            (by rw [hav]) hflag
        have h2 := dpYfStage_flag yfO step1.2.1 step1.1 p i step1.2.2
        have h3 := dpAkStage_flag akNet cgNet _ _ p _ fin hak
        rw [avFieldsOf_flag (assembleResult_avFields (batchKeyOf tl p i) fin.1 fin.2)]
        rw [h3, h2]
        exact h1

theorem downloadPrices_flag_mono (avO : Nat → AVResponse)
    (yfO : List String → String → String → YfOutcome)
    (akNet cgNet : String → Option Frame) (tk p i : String)
    (s : DSMState) (r : DPRet)
    (h : downloadPrices avO yfO akNet cgNet tk p i s = .ok r)
    (hflag : s.avRateLimited = true) : r.s.avRateLimited = true := by
  unfold downloadPrices at h
  try dsimp only at h
  split at h
  · cases h; exact hflag
  · split at h
    · split at h
      · cases h; exact hflag
      · cases h; exact hflag
    · split at h
      · cases h; exact hflag
      · exact dpTierWalk_flag_mono avO yfO akNet cgNet _ p i s r h hflag

/- ═══════════ Claim C4 ═══════════ -/

/-- C4: two consecutive minute-level rate-limit responses open the breaker
flag; once open, every Alpha Vantage request returns `None` immediately with
the state unchanged (no HTTP call, no slot wait, no cache lookup); and no
modelled operation of the manager ever resets the flag to false: the
yfinance tier never touches it and a completed `download_prices` run
preserves an open flag. -/
theorem C4_breaker_trip_and_permanence :
    (∀ (avO : Nat → AVResponse) (params : AVParams) (s : DSMState),
      s.avRateLimited = false → s.avConsecutiveLimits = 0 →
      alookup s.avCache params = none →
      avO s.avHttp = .noteLimit → avO (s.avHttp + 1) = .noteLimit →
      (avRequest avO params 3 s).1 = none ∧
      (avRequest avO params 3 s).2.avRateLimited = true) ∧
    (∀ (avO : Nat → AVResponse) (params : AVParams) (s : DSMState),
      s.avRateLimited = false → s.avConsecutiveLimits = 1 →
      alookup s.avCache params = none → avO s.avHttp = .noteLimit →
      (avRequest avO params 3 s).1 = none ∧
      (avRequest avO params 3 s).2.avRateLimited = true) ∧
    (∀ (avO : Nat → AVResponse) (params : AVParams) (m : Nat) (s : DSMState),
      s.avRateLimited = true → avRequest avO params m s = (none, s)) ∧
    (∀ (yfO : List String → String → String → YfOutcome) (ts : List String)
      (p i : String) (s : DSMState),
      (yfFallback yfO ts p i s).2.avRateLimited = s.avRateLimited) ∧
    (∀ (avO : Nat → AVResponse)
      (yfO : List String → String → String → YfOutcome)
      (akNet cgNet : String → Option Frame) (tk p i : String)
      (s : DSMState) (r : DPRet),
      downloadPrices avO yfO akNet cgNet tk p i s = .ok r →
      s.avRateLimited = true → r.s.avRateLimited = true) := by
  refine ⟨?_, ?_, ?_, ?_, downloadPrices_flag_mono⟩
  · intro avO params s hfl hcl hmiss h0 h1
    unfold avRequest
    rw [if_neg (by rw [hfl]; exact Bool.false_ne_true), hmiss]
    unfold avLoop
    rw [show ({ s with avWaits := s.avWaits + 1 } : DSMState).avHttp = s.avHttp from rfl, h0]
    dsimp only
    rw [if_neg (by simp [hcl]), if_pos (by omega)]
    unfold avLoop
    rw [show (s.avHttp + 1 = s.avHttp + 1) from rfl]
    dsimp only
    rw [hcl]
    rw [h1]
    dsimp only
    rw [if_pos (by omega)]
    exact ⟨rfl, rfl⟩
  · intro avO params s hfl hcl hmiss h0
    unfold avRequest
    rw [if_neg (by rw [hfl]; exact Bool.false_ne_true), hmiss]
    unfold avLoop
    rw [show ({ s with avWaits := s.avWaits + 1 } : DSMState).avHttp = s.avHttp from rfl, h0]
    dsimp only
    rw [hcl]
    rw [if_pos (by omega)]
    exact ⟨rfl, rfl⟩
  · intro avO params m s h
    exact avRequest_open avO params m s h
  · intro yfO ts p i s
    have := yfFallback_avFields yfO ts p i s
    exact congrArg (fun q => q.1) this

/-- Witness for C4 at concrete inputs: a manager fresh from the constructor
with an always-rate-limited oracle trips after the two in-request responses,
and an open breaker leaves a request with the state unchanged. -/
theorem C4_witness :
    ((avRequest (fun _ => .noteLimit) (.daily "SPY") 3 initState).1 = none ∧
      (avRequest (fun _ => .noteLimit) (.daily "SPY") 3 initState).2.avRateLimited = true) ∧
    avRequest (fun _ => .noteLimit) (.daily "SPY") 3
        { initState with avRateLimited := true } =
      (none, { initState with avRateLimited := true }) :=
  ⟨C4_breaker_trip_and_permanence.1 (fun _ => .noteLimit) (.daily "SPY") initState
      rfl rfl rfl rfl rfl,
    C4_breaker_trip_and_permanence.2.2.1 (fun _ => .noteLimit) (.daily "SPY") 3
      { initState with avRateLimited := true } rfl⟩

/- ═══════════ Claim C8 ═══════════ -/

/-- C8: a response carrying the daily-quota `'Information'` message makes the
retry loop open the breaker at once and return `None` after exactly that one
HTTP call, for every remaining-attempt count and every current
consecutive-limit count; lifted to `_av_request`, a closed-breaker cache-miss
request whose first response is the quota message returns `None` with the
breaker open. -/
theorem C8_quota_trips_immediately :
    (∀ (avO : Nat → AVResponse) (params : AVParams) (n : Nat) (s : DSMState),
      avO s.avHttp = .infoQuota →
      avLoop avO params (n + 1) s =
        (none, { s with avHttp := s.avHttp + 1, avRateLimited := true })) ∧
    (∀ (avO : Nat → AVResponse) (params : AVParams) (s : DSMState),
      s.avRateLimited = false → alookup s.avCache params = none →
      avO s.avHttp = .infoQuota →
      avRequest avO params 3 s =
        (none, { s with avWaits := s.avWaits + 1, avHttp := s.avHttp + 1,
                        avRateLimited := true })) := by
  constructor
  · intro avO params n s h0
    unfold avLoop
    rw [h0]
  · intro avO params s hfl hmiss h0
    unfold avRequest
    rw [if_neg (by rw [hfl]; exact Bool.false_ne_true), hmiss]
    unfold avLoop
    rw [show ({ s with avWaits := s.avWaits + 1 } : DSMState).avHttp = s.avHttp from rfl, h0]

/-- Witness for C8: the quota message on the first attempt of a fresh
manager opens the breaker with one HTTP call. -/
theorem C8_witness :
    avRequest (fun _ => .infoQuota) (.daily "SPY") 3 initState =
      (none, { initState with avWaits := 1, avHttp := 1, avRateLimited := true }) :=
  C8_quota_trips_immediately.2 (fun _ => .infoQuota) (.daily "SPY") initState rfl rfl rfl

/- ═══════════ Claim C7 ═══════════ -/

/-- C7 counterexample: the claim "an empty yfinance download result does not
mark yfinance unavailable for the rest of the session" is false.  On a fresh
manager, one `_yfinance_fallback` call whose download returns `None` sets
`_yf_available` to `False`, and a subsequent call for a different ticker is
skipped without any download (the HTTP counter does not move). -/
theorem C7_counterexample :
    (yfFallback yfNoneO ["AAPL"] "5d" "1d" initState).2.yfAvailable = some false ∧
    (yfFallback yfNoneO ["MSFT"] "5d" "1d"
        (yfFallback yfNoneO ["AAPL"] "5d" "1d" initState).2).1 = none ∧
    (yfFallback yfNoneO ["MSFT"] "5d" "1d"
        (yfFallback yfNoneO ["AAPL"] "5d" "1d" initState).2).2.yfHttp =
      (yfFallback yfNoneO ["AAPL"] "5d" "1d" initState).2.yfHttp := by
  exact ⟨rfl, rfl, rfl⟩

/-- C7 (amended): an Empty outcome from Alpha Vantage (payload whose frame
normalizes to no usable rows) advances the ticker to the next tier without
recording a provider failure: the breaker flag keeps its closed state and
the consecutive-limit counter is not incremented (it is reset, as for any
successful response).  For yfinance, however, an empty download result while
availability is still undetermined marks yfinance unavailable for the rest
of the session, and every subsequent yfinance call is skipped with no
download and no slot wait. -/
theorem C7_amended_empty_outcomes :
    (∀ (avO : Nat → AVResponse) (pd : Int) (t : String)
        (dfs : List (String × Frame)) (failed : List String) (s : DSMState)
        (p : AVPayload),
      alookup s.batchCache (.single t) = none →
      alookup CRYPTO_MAP t = none → alookup FX_MAP t = none →
      alookup INDEX_TO_ETF t = none →
      s.avRateLimited = false →
      alookup s.avCache (.daily t) = none →
      avO s.avHttp = .payload p →
      (avDailyToDf p = .ok none ∨ avDailyToDf p = .ok (some [])) →
      ∃ s', avStep avO pd t dfs failed s = .ok (dfs, failed ++ [t], s') ∧
        s'.avRateLimited = false ∧ s'.avConsecutiveLimits = 0) ∧
    (∀ (yfO : List String → String → String → YfOutcome) (tickers : List String)
        (p i : String) (s : DSMState),
      s.yfAvailable = none →
      (yfO tickers p i = .ok none ∨
        (∃ df, yfO tickers p i = .ok (some df) ∧ dfIsEmpty df = true)) →
      (yfFallback yfO tickers p i s).1 = none ∧
      (yfFallback yfO tickers p i s).2.yfAvailable = some false) ∧
    (∀ (yfO : List String → String → String → YfOutcome) (tickers : List String)
        (p i : String) (s : DSMState),
      s.yfAvailable = some false →
      yfFallback yfO tickers p i s =
        (none, { s with yfRequests := s.yfRequests ++ [tickers] })) := by
  refine ⟨?_, ?_, ?_⟩
  · intro avO pd t dfs failed s p hsingle hcr hfx hidx hflag hcache hresp hempty
    unfold avStep
    rw [hsingle]
    unfold avStepMiss
    rw [if_neg (by rw [hidx]; intro hc; cases hc), if_neg (by rw [hflag]; exact Bool.false_ne_true)]
    unfold fetchSingleTickerAv
    rw [hcr, hfx, hidx]
    unfold avFetchDaily avRequest
    rw [if_neg (by rw [hflag]; exact Bool.false_ne_true), hcache]
    unfold avLoop
    rw [show ({ s with avWaits := s.avWaits + 1 } : DSMState).avHttp = s.avHttp from rfl,
      hresp]
    dsimp only
    rcases hempty with hempty | hempty
    · rw [hempty]
      exact ⟨_, rfl, hflag ▸ rfl, rfl⟩
    · rw [hempty]
      dsimp only
      exact ⟨_, rfl, hflag ▸ rfl, rfl⟩
  · intro yfO tickers p i s hnone hempty
    unfold yfFallback
    rw [if_neg (by
      rw [show ({ s with yfRequests := s.yfRequests ++ [tickers] } : DSMState).yfAvailable
        = s.yfAvailable from rfl, hnone]
      intro hc; cases hc)]
    rcases hempty with hempty | ⟨df, hdf, hdfe⟩
    · rw [hempty]
      dsimp only
      rw [if_pos (by rw [hnone])]
      exact ⟨rfl, rfl⟩
    · rw [hdf]
      dsimp only
      rw [if_pos hdfe, if_pos (by rw [hnone])]
      exact ⟨rfl, rfl⟩
  · intro yfO tickers p i s hoff
    unfold yfFallback
    rw [if_pos (by rw [show ({ s with yfRequests := s.yfRequests ++ [tickers] } : DSMState).yfAvailable
        = s.yfAvailable from rfl, hoff])]

/-- Witness for the amended C7 theorem at concrete inputs: an empty Alpha
Vantage payload sends the ticker to the failed list with the breaker closed,
and an empty yfinance download on a fresh manager marks yfinance
unavailable. -/
theorem C7_amended_witness :
    (∃ s', avStep (fun _ => .payload (.daily none)) 66 "ZZZ" [] [] initState =
        .ok ([], [] ++ ["ZZZ"], s') ∧
      s'.avRateLimited = false ∧ s'.avConsecutiveLimits = 0) ∧
    ((yfFallback yfNoneO ["ZZZ"] "3mo" "1d" initState).1 = none ∧
      (yfFallback yfNoneO ["ZZZ"] "3mo" "1d" initState).2.yfAvailable = some false) ∧
    yfFallback yfNoneO ["ZZZ"] "3mo" "1d" { initState with yfAvailable := some false } =
      (none, { initState with yfAvailable := some false, yfRequests := [["ZZZ"]] }) :=
  ⟨C7_amended_empty_outcomes.1 (fun _ => .payload (.daily none)) 66 "ZZZ" [] [] initState
      (.daily none) rfl rfl rfl rfl rfl rfl rfl (Or.inl rfl),
    C7_amended_empty_outcomes.2.1 yfNoneO ["ZZZ"] "3mo" "1d" initState rfl (Or.inl rfl),
    C7_amended_empty_outcomes.2.2 yfNoneO ["ZZZ"] "3mo" "1d"
      { initState with yfAvailable := some false } rfl⟩

/- ═══════════ Claim C3 ═══════════ -/

theorem pySorted_eq_of_perm {l₁ l₂ : List String} (h : List.Perm l₁ l₂) :
    pySorted l₁ = pySorted l₂ :=
  List.eq_of_perm_of_sorted
    ((List.perm_insertionSort leS l₁).trans (h.trans (List.perm_insertionSort leS l₂).symm))
    (List.sorted_insertionSort leS l₁) (List.sorted_insertionSort leS l₂)

/-- C3: two request strings listing the same tickers in different orders
produce the identical batch cache key (the token list is sorted before the
key is built), and any request whose batch key is already cached returns
the stored frame with only the cache-hit counter bumped — in particular
zero provider HTTP calls. -/
theorem C3_order_independence :
    (∀ (s₁ s₂ p i : String), List.Perm (pySplitWs s₁) (pySplitWs s₂) →
      batchKeyOf (pySorted (pySplitWs s₁)) p i =
        batchKeyOf (pySorted (pySplitWs s₂)) p i) ∧
    (∀ (avO : Nat → AVResponse) (yfO : List String → String → String → YfOutcome)
        (akNet cgNet : String → Option Frame) (tickers p i : String)
        (s : DSMState) (df : DF),
      alookup s.batchCache (batchKeyOf (pySorted (pySplitWs tickers)) p i) = some df →
      downloadPrices avO yfO akNet cgNet tickers p i s = .ok ⟨some df, bumpHits s⟩) := by
  constructor
  · intro s₁ s₂ p i h
    unfold batchKeyOf
    rw [pySorted_eq_of_perm h]
  · intro avO yfO akNet cgNet tickers p i s df h
    unfold downloadPrices
    try dsimp only
    rw [h]

/-- Witness for C3: the two orderings of `"AAPL MSFT"` share one batch key,
and a request against a state caching that key is served from the cache. -/
theorem C3_witness :
    batchKeyOf (pySorted (pySplitWs "AAPL MSFT")) "5d" "1d" =
      batchKeyOf (pySorted (pySplitWs "MSFT AAPL")) "5d" "1d" ∧
    downloadPrices avAllGood yfNoneO akNoneO akNoneO "MSFT AAPL" "5d" "1d"
        { initState with batchCache :=
          [(CacheKey.batch ["AAPL", "MSFT"] "5d" "1d",
            DF.multi [("AAPL", goodFrame), ("MSFT", goodFrame)])] } =
      .ok ⟨some (DF.multi [("AAPL", goodFrame), ("MSFT", goodFrame)]),
        bumpHits { initState with batchCache :=
          [(CacheKey.batch ["AAPL", "MSFT"] "5d" "1d",
            DF.multi [("AAPL", goodFrame), ("MSFT", goodFrame)])] }⟩ :=
  ⟨C3_order_independence.1 "AAPL MSFT" "MSFT AAPL" "5d" "1d" (by decide),
    C3_order_independence.2 avAllGood yfNoneO akNoneO akNoneO "MSFT AAPL" "5d" "1d"
      _ _ (by decide)⟩

/- ═══════════ yfRequests bookkeeping lemmas ═══════════ -/

theorem yfFallback_yfRequests (yfO : List String → String → String → YfOutcome)
    (ts : List String) (p i : String) (s : DSMState) :
    (yfFallback yfO ts p i s).2.yfRequests = s.yfRequests ++ [ts] := by
  unfold yfFallback
  try dsimp only
  repeat' split
  all_goals rfl

theorem yfExtractPhase_yfRequests (ydf : DF) (ts : List String)
    (dfs : List (String × Frame)) (still : List String) (s : DSMState) :
    (yfExtractPhase ydf ts dfs still s).2.2.yfRequests = s.yfRequests := by
  induction ts generalizing dfs still s with
  | nil => rfl
  | cons t rest ih =>
    unfold yfExtractPhase
    try dsimp only
    repeat' split
    all_goals (rw [ih] <;> rfl)

theorem probeAkCodes_yfRequests (akNet : String → Option Frame) (t : String)
    (pres : List String) (s : DSMState) :
    (probeAkCodes akNet t pres s).2.yfRequests = s.yfRequests := by
  induction pres generalizing s with
  | nil => rfl
  | cons pre rest ih =>
    unfold probeAkCodes
    try dsimp only
    repeat' split
    all_goals first | rfl | (rw [ih] <;> rfl)

theorem getAkshareUsCode_yfRequests (akNet : String → Option Frame) (t : String)
    (s : DSMState) :
    (getAkshareUsCode akNet t s).2.yfRequests = s.yfRequests := by
  unfold getAkshareUsCode
  try dsimp only
  split
  · rfl
  · exact probeAkCodes_yfRequests _ _ _ _

theorem coingeckoFetchCoin_yfRequests (cgNet : String → Option Frame) (cid : String)
    (s : DSMState) :
    (coingeckoFetchCoin cgNet cid s).2.yfRequests = s.yfRequests := by
  unfold coingeckoFetchCoin
  try dsimp only
  repeat' split
  all_goals rfl

theorem coingeckoFetchFx_yfRequests (cgNet : String → Option Frame) (t : String)
    (s : DSMState) :
    (coingeckoFetchFx cgNet t s).2.yfRequests = s.yfRequests := by
  unfold coingeckoFetchFx
  try dsimp only
  repeat' split
  all_goals rfl

theorem coingeckoFallback_yfRequests (cgNet : String → Option Frame) (t : String)
    (s : DSMState) :
    (coingeckoFallback cgNet t s).2.yfRequests = s.yfRequests := by
  unfold coingeckoFallback
  try dsimp only
  repeat' split
  all_goals first
    | rfl
    | exact coingeckoFetchCoin_yfRequests _ _ _
    | exact coingeckoFetchFx_yfRequests _ _ _

theorem akFallbackLoop_yfRequests (akNet cgNet : String → Option Frame)
    (pd : Int) (ts : List String) (res : List (String × Frame)) (s : DSMState) :
    (akFallbackLoop akNet cgNet pd ts res s).2.yfRequests = s.yfRequests := by
  induction ts generalizing res s with
  | nil => rfl
  | cons t rest ih =>
    unfold akFallbackLoop
    try dsimp only
    repeat' split
    all_goals (rw [ih] <;> first
      | rfl
      | exact getAkshareUsCode_yfRequests _ _ _
      | exact coingeckoFallback_yfRequests _ _ _)

theorem akshareUsFallback_yfRequests (akNet cgNet : String → Option Frame)
    (still : List String) (p : String) (s : DSMState)
    (x : List (String × Frame) × DSMState)
    (h : akshareUsFallback akNet cgNet still p s = .ok x) :
    x.2.yfRequests = s.yfRequests := by
  unfold akshareUsFallback at h
  cases hpd : periodToDays p with
  | error u => rw [hpd] at h; cases h
  | ok pd =>
    rw [hpd] at h
    dsimp only [Except.bind, bind, pure, Except.pure] at h
    cases h
    exact akFallbackLoop_yfRequests akNet cgNet (if pd ≤ 0 then 90 else pd) still []  s

theorem akMergePhase_yfRequests (akRes dfs : List (String × Frame)) (s : DSMState) :
    (akMergePhase akRes dfs s).2.yfRequests = s.yfRequests := by
  induction akRes generalizing dfs s with
  | nil => rfl
  | cons e rest ih =>
    unfold akMergePhase
    try dsimp only
    repeat' split
    all_goals (rw [ih] <;> rfl)

theorem assembleResult_yfRequests (bkey : CacheKey) (dfs : List (String × Frame))
    (s : DSMState) : (assembleResult bkey dfs s).s.yfRequests = s.yfRequests := by
  unfold assembleResult
  try dsimp only
  repeat' split
  all_goals rfl

theorem dpAkStage_quiet (akNet cgNet : String → Option Frame)
    (still : List String) (dfs2 : List (String × Frame)) (p : String)
    (s2 : DSMState) (fin : List (String × Frame) × DSMState)
    (h : dpAkStage akNet cgNet still dfs2 p s2 = .ok fin) :
    avFieldsOf fin.2 = avFieldsOf s2 ∧ fin.2.yfRequests = s2.yfRequests := by
  unfold dpAkStage at h
  split at h
  · cases h; exact ⟨rfl, rfl⟩
  · split at h
    · cases h
    next akRun hak =>
      cases h
      constructor
      · rw [akMergePhase_avFields akRun.1 dfs2 akRun.2]
        exact (by
          unfold akshareUsFallback at hak
          cases hpd : periodToDays p with
          | error u => rw [hpd] at hak; cases hak
          | ok pd =>
            rw [hpd] at hak
            dsimp only [Except.bind, bind, pure, Except.pure] at hak
            cases hak
            exact akFallbackLoop_avFields akNet cgNet (if pd ≤ 0 then 90 else pd) still [] s2)
      · rw [akMergePhase_yfRequests akRun.1 dfs2 akRun.2]
        exact akshareUsFallback_yfRequests akNet cgNet still p s2 akRun hak

theorem dpYfStage_quiet (yfO : List String → String → String → YfOutcome)
    (avFailed : List String) (dfs : List (String × Frame)) (p i : String)
    (s1 : DSMState) :
    avFieldsOf (dpYfStage yfO avFailed dfs p i s1).2.2 = avFieldsOf s1 ∧
    (dpYfStage yfO avFailed dfs p i s1).2.2.yfRequests =
      (if avFailed.isEmpty then s1.yfRequests else s1.yfRequests ++ [avFailed]) := by
  unfold dpYfStage
  try dsimp only
  split
  next hemp => exact ⟨rfl, rfl⟩
  next hemp =>
    split
    · constructor
      · rw [yfExtractPhase_avFields]
        exact yfFallback_avFields yfO avFailed p i s1
      · rw [yfExtractPhase_yfRequests]
        exact yfFallback_yfRequests yfO avFailed p i s1
    · exact ⟨yfFallback_avFields yfO avFailed p i s1,
        yfFallback_yfRequests yfO avFailed p i s1⟩

/- ═══════════ Claim C6 ═══════════ -/

/-- C6: a ticker whose `INDEX_TO_ETF` mapping is the explicit `None` sentinel
is never fetched from Alpha Vantage: its loop iteration returns the state
completely unchanged (no HTTP call, no slot wait, breaker counter and flag
untouched) and appends the ticker to the failed list; end to end, a
single-ticker request for such a ticker on an empty cache finishes with the
Alpha Vantage HTTP and wait counters and the breaker state exactly as
before, and the ticker list `[t]` handed to the yfinance tier on this very
first attempt. -/
theorem C6_sentinel_skip :
    (∀ (avO : Nat → AVResponse) (pd : Int) (t : String)
        (dfs : List (String × Frame)) (failed : List String) (s : DSMState),
      alookup INDEX_TO_ETF t = some none →
      alookup s.batchCache (.single t) = none →
      avStep avO pd t dfs failed s = .ok (dfs, failed ++ [t], s)) ∧
    (∀ (avO : Nat → AVResponse) (yfO : List String → String → String → YfOutcome)
        (akNet cgNet : String → Option Frame) (tStr p i t : String)
        (s : DSMState) (pd : Int) (ret : DPRet),
      pySplitWs tStr = [t] →
      alookup INDEX_TO_ETF t = some none →
      s.batchCache = [] →
      periodToDays p = .ok pd →
      downloadPrices avO yfO akNet cgNet tStr p i s = .ok ret →
      ret.s.avHttp = s.avHttp ∧ ret.s.avWaits = s.avWaits ∧
        ret.s.avRateLimited = s.avRateLimited ∧
        ret.s.avConsecutiveLimits = s.avConsecutiveLimits ∧
        ret.s.yfRequests = s.yfRequests ++ [[t]]) := by
  have hstep : ∀ (avO : Nat → AVResponse) (pd : Int) (t : String)
      (dfs : List (String × Frame)) (failed : List String) (s : DSMState),
      alookup INDEX_TO_ETF t = some none →
      alookup s.batchCache (.single t) = none →
      avStep avO pd t dfs failed s = .ok (dfs, failed ++ [t], s) := by
    intro avO pd t dfs failed s hidx hsingle
    unfold avStep
    rw [hsingle]
    unfold avStepMiss
    rw [if_pos hidx]
  refine ⟨hstep, ?_⟩
  intro avO yfO akNet cgNet tStr p i t s pd ret hsplit hidx hempty hpd hrun
  unfold downloadPrices at hrun
  try dsimp only at hrun
  rw [hsplit, show pySorted [t] = [t] from rfl, hempty] at hrun
  simp only [alookup, subsetScan] at hrun
  unfold dpTierWalk at hrun
  rw [hpd] at hrun
  try dsimp only at hrun
  have hst := hstep avO pd t [] [] s hidx (by rw [hempty]; rfl)
  unfold avPhase at hrun
  rw [hst] at hrun
  try dsimp only at hrun
  unfold avPhase at hrun
  try dsimp only at hrun
  simp only [List.nil_append] at hrun
  cases hak : dpAkStage akNet cgNet (dpYfStage yfO [t] [] p i s).2.1
      (dpYfStage yfO [t] [] p i s).1 p (dpYfStage yfO [t] [] p i s).2.2 with
  | error u => rw [hak] at hrun; cases hrun
  | ok fin =>
    rw [hak] at hrun
    try dsimp only at hrun
    cases hrun
    have hyf := dpYfStage_quiet yfO [t] [] p i s
    have hak2 := dpAkStage_quiet akNet cgNet _ _ p _ fin hak
    have hasmAv := assembleResult_avFields (batchKeyOf [t] p i) fin.1 fin.2
    have hasmYf := assembleResult_yfRequests (batchKeyOf [t] p i) fin.1 fin.2
    have hav : avFieldsOf (assembleResult (batchKeyOf [t] p i) fin.1 fin.2).s =
        avFieldsOf s := by
      rw [hasmAv, hak2.1, hyf.1]
    refine ⟨congrArg (fun q => q.2.2.1) hav, congrArg (fun q => q.2.2.2) hav,
      congrArg (fun q => q.1) hav, congrArg (fun q => q.2.1) hav, ?_⟩
    rw [hasmYf, hak2.2, hyf.2]
    rfl

/-- Witness for C6 at the `^VIX9D` sentinel with concrete oracles. -/
theorem C6_witness :
    avStep avAllGood 66 "^VIX9D" [] [] initState = .ok ([], [] ++ ["^VIX9D"], initState) ∧
    (∀ (ret : DPRet),
      downloadPrices avAllGood yfNoneO akNoneO akNoneO "^VIX9D" "3mo" "1d" initState =
        .ok ret →
      ret.s.avHttp = initState.avHttp ∧ ret.s.avWaits = initState.avWaits ∧
        ret.s.avRateLimited = initState.avRateLimited ∧
        ret.s.avConsecutiveLimits = initState.avConsecutiveLimits ∧
        ret.s.yfRequests = initState.yfRequests ++ [["^VIX9D"]]) :=
  ⟨C6_sentinel_skip.1 avAllGood 66 "^VIX9D" [] [] initState (by decide) rfl,
    fun ret hrun => C6_sentinel_skip.2 avAllGood yfNoneO akNoneO akNoneO
      "^VIX9D" "3mo" "1d" "^VIX9D" initState 66 ret (by decide) (by decide) rfl
      (by decide) hrun⟩

/- ═══════════ Claim C1 ═══════════ -/

/-- Post-state of a first `download_prices("AAPL", "1y", "1d")` call on a
fresh manager whose Alpha Vantage oracle returns three good daily rows. -/
def c1FirstRun : DPRet :=
  ((downloadPrices avAllGood yfNoneO akNoneO akNoneO "AAPL" "1y" "1d" initState).toOption).getD
    ⟨none, initState⟩

/-- C1 counterexample: the claim "a cache hit never returns a frame whose
window does not exactly equal the requested window" is false.  After a
successful 1y/1d fetch for AAPL, a 5d/1d request for AAPL is served entirely
from the cache (the state changes only by the hit counter, so zero provider
calls) and returns the very frame fetched for the 1y window, even though no
cache entry with period "5d" exists: the serving entry is the windowless
`AAPL|single` key. -/
theorem C1_counterexample :
    downloadPrices avAllGood yfNoneO akNoneO akNoneO "AAPL" "5d" "1d" c1FirstRun.s =
      .ok ⟨c1FirstRun.result, bumpHits c1FirstRun.s⟩ ∧
    c1FirstRun.result = some (.flat goodFrame) ∧
    (c1FirstRun.s.batchCache.all fun e =>
      match e.1 with
      | .batch _ per _ => per != "5d"
      | .single _ => true) = true := by
  exact ⟨by decide, by decide, by decide⟩

/-- C1 (amended): exact-key and subset-scan cache hits only return frames
stored under a batch key whose period and interval equal the requested
window; but per-single-ticker entries are keyed by ticker alone
(`ticker|single`), and a single-ticker request whose exact and subset
lookups miss is served from that entry regardless of the period and
interval it was originally fetched for. -/
theorem subsetScan_skips_other_windows (tl : List String) (p i : String) :
    ∀ (cache : List (CacheKey × DF)),
      (∀ cts d, (CacheKey.batch cts p i, d) ∉ cache) →
      subsetScan tl p i cache = none := by
  intro cache
  induction cache with
  | nil => intro _; rfl
  | cons e rest ih =>
    intro hno
    have hrest : ∀ cts d, (CacheKey.batch cts p i, d) ∉ rest := by
      intro cts d hmem
      exact hno cts d (List.mem_cons_of_mem _ hmem)
    obtain ⟨key, data⟩ := e
    cases key with
    | single t =>
      unfold subsetScan
      exact ih hrest
    | batch cts pk ik =>
      by_cases hpi : pk = p ∧ ik = i
      · obtain ⟨hp1, hp2⟩ := hpi
        subst hp1
        subst hp2
        exact absurd (List.mem_cons_self _ _) (hno cts data)
      · unfold subsetScan
        dsimp only
        rw [if_neg (by
          simp only [Bool.and_eq_true, decide_eq_true_eq]
          intro hc
          exact hpi hc.1)]
        exact ih hrest

theorem C1_amended_window_exactness :
    (∀ (tl : List String) (p i : String) (cache : List (CacheKey × DF))
        (b : Bool) (df : DF),
      subsetScan tl p i cache = some (b, df) →
      ∃ cts d, (CacheKey.batch cts p i, d) ∈ cache) ∧
    (∀ (avO : Nat → AVResponse) (yfO : List String → String → String → YfOutcome)
        (akNet cgNet : String → Option Frame) (tStr p i t : String)
        (s : DSMState) (df : DF),
      pySplitWs tStr = [t] →
      alookup s.batchCache (batchKeyOf [t] p i) = none →
      subsetScan [t] p i s.batchCache = none →
      alookup s.batchCache (.single t) = some df →
      downloadPrices avO yfO akNet cgNet tStr p i s = .ok ⟨some df, bumpHits s⟩) := by
  constructor
  · intro tl p i cache b df h
    by_contra hno
    push_neg at hno
    rw [subsetScan_skips_other_windows tl p i cache hno] at h
    cases h
  · intro avO yfO akNet cgNet tStr p i t s df hsplit hexact hscan hsingle
    unfold downloadPrices
    try dsimp only
    rw [hsplit, show pySorted [t] = [t] from rfl, hexact]
    try dsimp only
    rw [hscan]
    try dsimp only
    rw [hsingle]

/-- Witness for the amended C1 theorem: a subset hit against a concrete
cache carries the requested window, and a single-key hit serves a 5d request
from a frame cached without window information. -/
theorem C1_amended_witness :
    (∃ cts d, (CacheKey.batch cts "5d" "1d", d) ∈
      [(CacheKey.batch ["AAPL", "MSFT"] "5d" "1d",
        DF.multi [("AAPL", goodFrame), ("MSFT", goodFrame)])]) ∧
    downloadPrices avAllGood yfNoneO akNoneO akNoneO "AAPL" "5d" "1d"
        { initState with batchCache := [(CacheKey.single "AAPL", DF.flat goodFrame)] } =
      .ok ⟨some (DF.flat goodFrame),
        bumpHits { initState with batchCache :=
          [(CacheKey.single "AAPL", DF.flat goodFrame)] }⟩ :=
  ⟨C1_amended_window_exactness.1 ["AAPL"] "5d" "1d"
      [(CacheKey.batch ["AAPL", "MSFT"] "5d" "1d",
        DF.multi [("AAPL", goodFrame), ("MSFT", goodFrame)])] true (.flat goodFrame)
      (by decide),
    C1_amended_window_exactness.2 avAllGood yfNoneO akNoneO akNoneO "AAPL" "5d" "1d"
      "AAPL" _ _ (by decide) (by decide) (by decide) (by decide)⟩

/- ═══════════ Claim C2 ═══════════ -/

theorem alookup_mem {K V : Type} [DecidableEq K] {l : List (K × V)} {k : K} {v : V}
    (h : alookup l k = some v) : (k, v) ∈ l := by
  induction l with
  | nil => cases h
  | cons e rest ih =>
    obtain ⟨k0, v0⟩ := e
    unfold alookup at h
    split at h
    next heq =>
      cases h
      rw [heq]
      exact List.mem_cons_self _ _
    next => exact List.mem_cons_of_mem _ (ih h)

theorem alookup_none_of_forall_ne {K V : Type} [DecidableEq K] {l : List (K × V)}
    {k : K} (h : ∀ e ∈ l, e.1 ≠ k) : alookup l k = none := by
  induction l with
  | nil => rfl
  | cons e rest ih =>
    obtain ⟨k0, v0⟩ := e
    unfold alookup
    rw [if_neg (fun hc => h (k0, v0) (List.mem_cons_self _ _) hc.symm)]
    exact ih (fun e' he' => h e' (List.mem_cons_of_mem _ he'))

theorem alookup_keys_mem {K V : Type} [DecidableEq K] {l : List (K × V)} {t : K}
    (h : t ∈ l.map Prod.fst) : ∃ v, alookup l t = some v := by
  induction l with
  | nil => cases h
  | cons e rest ih =>
    obtain ⟨k0, v0⟩ := e
    by_cases hk : t = k0
    · exact ⟨v0, by unfold alookup; rw [if_pos hk]⟩
    · have hrest : t ∈ rest.map Prod.fst := by
        simp only [List.map_cons, List.mem_cons] at h
        rcases h with h | h
        · exact absurd h hk
        · exact h
      obtain ⟨v, hv⟩ := ih hrest
      exact ⟨v, by unfold alookup; rw [if_neg hk]; exact hv⟩

theorem alookup_shape_hit (S : List String) (p i : String)
    (panel : List (String × Frame)) :
    ∀ (cache : List (CacheKey × DF)),
      (∀ e ∈ cache, (∃ u, e.1 = CacheKey.single u) ∨
        e = (CacheKey.batch S p i, DF.multi panel)) →
      (CacheKey.batch S p i, DF.multi panel) ∈ cache →
      alookup cache (CacheKey.batch S p i) = some (DF.multi panel) := by
  intro cache
  induction cache with
  | nil => intro _ hmem; cases hmem
  | cons e rest ih =>
    intro hshape hmem
    rcases hshape e (List.mem_cons_self e rest) with ⟨u, hu⟩ | he
    · obtain ⟨key, data⟩ := e
      unfold alookup
      rw [if_neg (by
        simp only at hu
        rw [hu]
        intro hc
        cases hc)]
      apply ih (fun e' he' => hshape e' (List.mem_cons_of_mem _ he'))
      rcases List.mem_cons.mp hmem with hc | hc
      · exfalso
        rw [← hc] at hu
        simp only at hu
        cases hu
      · exact hc
    · rw [he]
      unfold alookup
      rw [if_pos rfl]

/-- Projection of a MultiIndex column block onto a requested ticker list:
`xs` for a single-ticker request, column selection otherwise — exactly the
operations the subset scan performs on a hit. -/
def projectPanel (panel : List (String × Frame)) (B : List String) : DF :=
  match B with
  | [t] => .flat ((alookup panel t).getD [])
  | _ => .multi (panel.filter (fun e => e.1 ∈ B))

theorem subsetScan_superset_hit (S : List String) (p i : String)
    (panel : List (String × Frame)) (B : List String)
    (hkeys : panel.map Prod.fst = S)
    (hne : B ≠ []) (hsub : ∀ t ∈ B, t ∈ S)
    (hrows : ∀ e ∈ panel, e.2 ≠ []) :
    ∀ (cache : List (CacheKey × DF)),
      (∀ e ∈ cache, (∃ u, e.1 = CacheKey.single u) ∨
        e = (CacheKey.batch S p i, DF.multi panel)) →
      (CacheKey.batch S p i, DF.multi panel) ∈ cache →
      subsetScan B p i cache = some (true, projectPanel panel B) := by
  intro cache
  induction cache with
  | nil => intro _ hmem; cases hmem
  | cons e rest ih =>
    intro hshape hmem
    rcases hshape e (List.mem_cons_self e rest) with ⟨u, hu⟩ | he
    · obtain ⟨key, data⟩ := e
      simp only at hu
      subst hu
      unfold subsetScan
      apply ih (fun e' he' => hshape e' (List.mem_cons_of_mem _ he'))
      rcases List.mem_cons.mp hmem with hc | hc
      · simp only [Prod.mk.injEq] at hc
        cases hc.1
      · exact hc
    · subst he
      unfold subsetScan
      try dsimp only
      rw [if_pos (by
        simp only [Bool.and_eq_true, decide_eq_true_eq, List.all_eq_true]
        exact ⟨⟨trivial, trivial⟩, hsub⟩)]
      rw [hkeys]
      have hfound : List.filter (fun x => decide (x ∈ S)) B = B :=
        List.filter_eq_self.mpr (fun a ha => decide_eq_true (hsub a ha))
      rw [hfound]
      rw [if_pos (by
        cases B with
        | nil => exact absurd rfl hne
        | cons b1 brest => rfl)]
      cases B with
      | nil => exact absurd rfl hne
      | cons b1 brest =>
        cases brest with
        | nil =>
          try dsimp only
          rw [if_pos (hsub b1 (List.mem_cons_self b1 []))]
          obtain ⟨rows, hrows1⟩ := alookup_keys_mem (l := panel) (t := b1)
            (by rw [hkeys]; exact hsub b1 (List.mem_cons_self b1 []))
          have hproj : projectPanel panel [b1] = DF.flat rows := by
            simp only [projectPanel, hrows1, Option.getD_some]
          simp only [hrows1, hproj]
        | cons b2 brest2 =>
          try dsimp only
          have hb1 : b1 ∈ panel.map Prod.fst := by
            rw [hkeys]
            exact hsub b1 (List.mem_cons_self b1 _)
          obtain ⟨e0, he0, he0k⟩ := List.mem_map.mp hb1
          have he0f : e0 ∈ panel.filter (fun e => decide (e.1 ∈ b1 :: b2 :: brest2)) := by
            apply List.mem_filter.mpr
            exact ⟨he0, by rw [he0k]; exact decide_eq_true (List.mem_cons_self b1 _)⟩
          rw [if_pos (by
            simp only [dfIsEmpty, Bool.not_eq_true']
            apply Bool.or_eq_false_iff.mpr
            constructor
            · exact List.isEmpty_eq_false_iff_exists_mem.mpr ⟨e0, he0f⟩
            · apply (Bool.not_eq_true _).mp
              intro hall
              have := List.all_eq_true.mp hall e0 he0f
              have hne0 := hrows e0 he0
              simp only [List.isEmpty_eq_true] at this
              exact hne0 this)]
          rfl

/-- C2: after a fully successful batched fetch for ticker set `S` (the cache
holds the batch entry for `S` with a non-empty column block per ticker, plus
per-ticker entries), a `download_prices` call for any non-empty subset of
`S` with the same window is served entirely from the cache — zero provider
HTTP calls on any tier — and returns exactly the projection of the cached
superset frame onto the requested tickers. -/
theorem C2_subset_cache_hit (avO : Nat → AVResponse)
    (yfO : List String → String → String → YfOutcome)
    (akNet cgNet : String → Option Frame) (reqStr p i : String)
    (S B : List String) (panel : List (String × Frame)) (s : DSMState)
    (hBdef : pySorted (pySplitWs reqStr) = B)
    (hshape : ∀ e ∈ s.batchCache, (∃ u, e.1 = CacheKey.single u) ∨
      e = (CacheKey.batch S p i, DF.multi panel))
    (hmem : (CacheKey.batch S p i, DF.multi panel) ∈ s.batchCache)
    (hkeys : panel.map Prod.fst = S)
    (hrows : ∀ e ∈ panel, e.2 ≠ [])
    (hlen : 2 ≤ S.length)
    (hne : B ≠ [])
    (hsub : ∀ t ∈ B, t ∈ S) :
    ∃ ret, downloadPrices avO yfO akNet cgNet reqStr p i s = .ok ret ∧
      ret.result = some (projectPanel panel B) ∧
      avFieldsOf ret.s = avFieldsOf s ∧
      ret.s.yfHttp = s.yfHttp ∧ ret.s.akHttp = s.akHttp ∧ ret.s.cgHttp = s.cgHttp := by
  by_cases hBS : B = S
  · have hlook : alookup s.batchCache (batchKeyOf B p i) = some (DF.multi panel) := by
      rw [hBS]
      exact alookup_shape_hit S p i panel s.batchCache hshape hmem
    refine ⟨⟨some (DF.multi panel), bumpHits s⟩, ?_, ?_, rfl, rfl, rfl, rfl⟩
    · unfold downloadPrices
      try dsimp only
      rw [hBdef, hlook]
    · have hfull : panel.filter (fun e => decide (e.1 ∈ B)) = panel :=
        List.filter_eq_self.mpr (fun e hemem => by
          rw [hBS]
          exact decide_eq_true (by rw [← hkeys]; exact List.mem_map_of_mem Prod.fst hemem))
      cases B with
      | nil => exact absurd rfl hne
      | cons b1 brest =>
        cases brest with
        | nil =>
          rw [← hBS] at hlen
          simp at hlen
        | cons b2 brest2 =>
          have hred : projectPanel panel (b1 :: b2 :: brest2) =
              DF.multi (panel.filter (fun e => decide (e.1 ∈ b1 :: b2 :: brest2))) := rfl
          rw [hred, hfull]
  · have hexact : alookup s.batchCache (batchKeyOf B p i) = none := by
      apply alookup_none_of_forall_ne
      intro e he
      rcases hshape e he with ⟨u, hu⟩ | he2
      · rw [hu]
        intro hc
        cases hc
      · rw [he2]
        intro hc
        simp only [batchKeyOf, CacheKey.batch.injEq] at hc
        exact hBS hc.1.symm
    have hscan := subsetScan_superset_hit S p i panel B hkeys hne hsub hrows
      s.batchCache hshape hmem
    refine ⟨⟨some (projectPanel panel B),
      bumpHits { s with batchCache := dictInsert s.batchCache (batchKeyOf B p i) (projectPanel panel B) }⟩,
      ?_, rfl, rfl, rfl, rfl, rfl⟩
    unfold downloadPrices
    try dsimp only
    rw [hBdef, hexact, hscan]
    rfl

/-- Witness for C2: the cached three-ticker batch serves a one-ticker
subset request from the cache with the projected frame. -/
theorem C2_witness :
    ∃ ret, downloadPrices avAllGood yfNoneO akNoneO akNoneO "GOOG" "5d" "1d"
        { initState with batchCache :=
          [(CacheKey.single "AAPL", DF.flat goodFrame),
           (CacheKey.single "GOOG", DF.flat goodFrame),
           (CacheKey.single "MSFT", DF.flat goodFrame),
           (CacheKey.batch ["AAPL", "GOOG", "MSFT"] "5d" "1d",
            DF.multi [("AAPL", goodFrame), ("GOOG", goodFrame), ("MSFT", goodFrame)])] } =
      .ok ret ∧
      ret.result = some (projectPanel
        [("AAPL", goodFrame), ("GOOG", goodFrame), ("MSFT", goodFrame)] ["GOOG"]) ∧
      avFieldsOf ret.s = avFieldsOf { initState with batchCache :=
          [(CacheKey.single "AAPL", DF.flat goodFrame),
           (CacheKey.single "GOOG", DF.flat goodFrame),
           (CacheKey.single "MSFT", DF.flat goodFrame),
           (CacheKey.batch ["AAPL", "GOOG", "MSFT"] "5d" "1d",
            DF.multi [("AAPL", goodFrame), ("GOOG", goodFrame), ("MSFT", goodFrame)])] } ∧
      ret.s.yfHttp = 0 ∧ ret.s.akHttp = 0 ∧ ret.s.cgHttp = 0 :=
  C2_subset_cache_hit avAllGood yfNoneO akNoneO akNoneO "GOOG" "5d" "1d"
    ["AAPL", "GOOG", "MSFT"] ["GOOG"]
    [("AAPL", goodFrame), ("GOOG", goodFrame), ("MSFT", goodFrame)] _
    (by decide)
    (by
      intro e he
      simp only [List.mem_cons, List.not_mem_nil, or_false] at he
      rcases he with rfl | rfl | rfl | rfl
      · exact Or.inl ⟨"AAPL", rfl⟩
      · exact Or.inl ⟨"GOOG", rfl⟩
      · exact Or.inl ⟨"MSFT", rfl⟩
      · exact Or.inr rfl)
    (by decide) (by decide) (by decide) (by decide) (by decide) (by decide)

/- ═══════════ Claim C10 ═══════════ -/

theorem dictInsert_ne_nil {K V : Type} [DecidableEq K] (d : List (K × V))
    (k : K) (v : V) : dictInsert d k v ≠ [] := by
  unfold dictInsert
  split
  next hs =>
    cases d with
    | nil => cases hs
    | cons e rest => simp
  next => simp

theorem avLoop_batchCache (avO : Nat → AVResponse) (params : AVParams) (n : Nat)
    (s : DSMState) : ((avLoop avO params n s).2).batchCache = s.batchCache := by
  induction n generalizing s with
  | zero => rfl
  | succ n ih =>
    unfold avLoop
    try dsimp only
    repeat' split
    all_goals first | rfl | (rw [ih] <;> rfl)

theorem avRequest_batchCache (avO : Nat → AVResponse) (params : AVParams)
    (m : Nat) (s : DSMState) :
    ((avRequest avO params m s).2).batchCache = s.batchCache := by
  unfold avRequest
  try dsimp only
  repeat' split
  all_goals first | rfl | (rw [avLoop_batchCache] <;> rfl)

theorem fetchSingleTickerAv_batchCache (avO : Nat → AVResponse) (t : String)
    (s : DSMState) :
    ((fetchSingleTickerAv avO t s).2).batchCache = s.batchCache := by
  unfold fetchSingleTickerAv avFetchDaily
  try dsimp only
  repeat' split
  all_goals first | rfl | exact avRequest_batchCache avO _ 3 s

theorem avStep_nil_cache (avO : Nat → AVResponse) (pd : Int) (t : String)
    (dfs : List (String × Frame)) (failed : List String) (s : DSMState)
    (acc : List (String × Frame) × List String × DSMState)
    (h : avStep avO pd t dfs failed s = .ok acc) (hdfs : acc.1 = []) :
    dfs = [] ∧ acc.2.2.batchCache = s.batchCache := by
  unfold avStep avStepMiss at h
  try dsimp only at h
  repeat' split at h
  all_goals cases h
  all_goals first
    | exact absurd hdfs (dictInsert_ne_nil dfs t _)
    | exact ⟨hdfs, rfl⟩
    | exact ⟨hdfs, fetchSingleTickerAv_batchCache avO t s⟩

theorem avPhase_nil_cache (avO : Nat → AVResponse) (pd : Int)
    (ts : List String) (dfs : List (String × Frame)) (failed : List String)
    (s : DSMState) (dfs' : List (String × Frame)) (f' : List String)
    (s' : DSMState)
    (h : avPhase avO pd ts dfs failed s = .ok (dfs', f', s')) (hnil : dfs' = []) :
    dfs = [] ∧ s'.batchCache = s.batchCache := by
  induction ts generalizing dfs failed s with
  | nil =>
    cases h
    exact ⟨hnil, rfl⟩
  | cons t rest ih =>
    unfold avPhase at h
    split at h
    · cases h
    next acc hstep =>
      obtain ⟨h1, h2⟩ := ih acc.1 acc.2.1 acc.2.2 h
      obtain ⟨h3, h4⟩ := avStep_nil_cache avO pd t dfs failed s acc hstep h1
      exact ⟨h3, h2.trans h4⟩

theorem yfExtractPhase_nil_cache (ydf : DF) (ts : List String)
    (dfs : List (String × Frame)) (still : List String) (s : DSMState)
    (out : List (String × Frame) × List String × DSMState)
    (h : yfExtractPhase ydf ts dfs still s = out) (hnil : out.1 = []) :
    dfs = [] ∧ out.2.2.batchCache = s.batchCache := by
  induction ts generalizing dfs still s with
  | nil =>
    cases h
    exact ⟨hnil, rfl⟩
  | cons t rest ih =>
    unfold yfExtractPhase at h
    try dsimp only at h
    repeat' split at h
    all_goals first
      | (obtain ⟨h1, h2⟩ := ih _ _ _ h
         exact absurd h1 (dictInsert_ne_nil dfs t _))
      | exact ih _ _ _ h
      | (obtain ⟨h1, h2⟩ := ih _ _ _ h
         exact ⟨h1, h2⟩)

theorem probeAkCodes_batchCache (akNet : String → Option Frame) (t : String)
    (pres : List String) (s : DSMState) :
    (probeAkCodes akNet t pres s).2.batchCache = s.batchCache := by
  induction pres generalizing s with
  | nil => rfl
  | cons pre rest ih =>
    unfold probeAkCodes
    try dsimp only
    repeat' split
    all_goals first | rfl | (rw [ih] <;> rfl)

theorem getAkshareUsCode_batchCache (akNet : String → Option Frame) (t : String)
    (s : DSMState) :
    (getAkshareUsCode akNet t s).2.batchCache = s.batchCache := by
  unfold getAkshareUsCode
  try dsimp only
  split
  · rfl
  · exact probeAkCodes_batchCache _ _ _ _

theorem coingeckoFetchCoin_batchCache (cgNet : String → Option Frame)
    (cid : String) (s : DSMState) :
    (coingeckoFetchCoin cgNet cid s).2.batchCache = s.batchCache := by
  unfold coingeckoFetchCoin
  try dsimp only
  repeat' split
  all_goals rfl

theorem coingeckoFetchFx_batchCache (cgNet : String → Option Frame)
    (t : String) (s : DSMState) :
    (coingeckoFetchFx cgNet t s).2.batchCache = s.batchCache := by
  unfold coingeckoFetchFx
  try dsimp only
  repeat' split
  all_goals rfl

theorem coingeckoFallback_batchCache (cgNet : String → Option Frame)
    (t : String) (s : DSMState) :
    (coingeckoFallback cgNet t s).2.batchCache = s.batchCache := by
  unfold coingeckoFallback
  try dsimp only
  repeat' split
  all_goals first
    | rfl
    | exact coingeckoFetchCoin_batchCache _ _ _
    | exact coingeckoFetchFx_batchCache _ _ _

theorem akFallbackLoop_batchCache (akNet cgNet : String → Option Frame)
    (pd : Int) (ts : List String) (res : List (String × Frame)) (s : DSMState) :
    (akFallbackLoop akNet cgNet pd ts res s).2.batchCache = s.batchCache := by
  induction ts generalizing res s with
  | nil => rfl
  | cons t rest ih =>
    unfold akFallbackLoop
    try dsimp only
    repeat' split
    all_goals (rw [ih] <;> first
      | rfl
      | exact getAkshareUsCode_batchCache _ _ _
      | exact coingeckoFallback_batchCache _ _ _)

theorem akshareUsFallback_batchCache (akNet cgNet : String → Option Frame)
    (still : List String) (p : String) (s : DSMState)
    (x : List (String × Frame) × DSMState)
    (h : akshareUsFallback akNet cgNet still p s = .ok x) :
    x.2.batchCache = s.batchCache := by
  unfold akshareUsFallback at h
  cases hpd : periodToDays p with
  | error u => rw [hpd] at h; cases h
  | ok pd =>
    rw [hpd] at h
    dsimp only [Except.bind, bind, pure, Except.pure] at h
    cases h
    exact akFallbackLoop_batchCache akNet cgNet (if pd ≤ 0 then 90 else pd) still [] s

theorem akMergePhase_nil_cache (akRes dfs : List (String × Frame)) (s : DSMState)
    (out : List (String × Frame) × DSMState)
    (h : akMergePhase akRes dfs s = out) (hnil : out.1 = []) :
    dfs = [] ∧ out.2.batchCache = s.batchCache := by
  induction akRes generalizing dfs s with
  | nil =>
    cases h
    exact ⟨hnil, rfl⟩
  | cons e rest ih =>
    unfold akMergePhase at h
    try dsimp only at h
    split at h
    · obtain ⟨h1, h2⟩ := ih _ _ h
      exact absurd h1 (dictInsert_ne_nil dfs e.1 _)
    · exact ih _ _ h

theorem dpYfStage_nil_cache (yfO : List String → String → String → YfOutcome)
    (avFailed : List String) (dfs : List (String × Frame)) (p i : String)
    (s1 : DSMState) (out : List (String × Frame) × List String × DSMState)
    (h : dpYfStage yfO avFailed dfs p i s1 = out) (hnil : out.1 = []) :
    dfs = [] ∧ out.2.2.batchCache = s1.batchCache := by
  unfold dpYfStage at h
  try dsimp only at h
  split at h
  · cases h
    exact ⟨hnil, rfl⟩
  · split at h
    · obtain ⟨h1, h2⟩ := yfExtractPhase_nil_cache _ avFailed dfs avFailed _ out h hnil
      refine ⟨h1, ?_⟩
      rw [h2]
      exact yfFallback_batchCache yfO avFailed p i s1
    · cases h
      exact ⟨hnil, yfFallback_batchCache yfO avFailed p i s1⟩

theorem dpAkStage_nil_cache (akNet cgNet : String → Option Frame)
    (still : List String) (dfs2 : List (String × Frame)) (p : String)
    (s2 : DSMState) (fin : List (String × Frame) × DSMState)
    (h : dpAkStage akNet cgNet still dfs2 p s2 = .ok fin) (hnil : fin.1 = []) :
    dfs2 = [] ∧ fin.2.batchCache = s2.batchCache := by
  unfold dpAkStage at h
  split at h
  · cases h
    exact ⟨hnil, rfl⟩
  · split at h
    · cases h
    next akRun hak =>
      cases h
      obtain ⟨h1, h2⟩ := akMergePhase_nil_cache akRun.1 dfs2 akRun.2 _ rfl hnil
      refine ⟨h1, ?_⟩
      rw [h2]
      exact akshareUsFallback_batchCache akNet cgNet still p s2 akRun hak

theorem assembleResult_none (bkey : CacheKey) (dfs : List (String × Frame))
    (s : DSMState) (hres : (assembleResult bkey dfs s).result = none) :
    dfs = [] ∧ (assembleResult bkey dfs s).s = s := by
  cases dfs with
  | nil => exact ⟨rfl, rfl⟩
  | cons e rest =>
    cases rest with
    | nil =>
      exfalso
      unfold assembleResult at hres
      try dsimp only at hres
      revert hres
      split <;> intro hres <;> cases hres
    | cons e2 rest2 =>
      exfalso
      unfold assembleResult at hres
      try dsimp only at hres
      rw [show mergeToMulti (e :: e2 :: rest2) = some (.multi (e :: e2 :: rest2)) from rfl]
        at hres
      try dsimp only at hres
      revert hres
      split <;> intro hres <;> cases hres

/-- C10: a `download_prices` call that returns `None` leaves the batch cache
exactly as it was — in particular nothing is written under the request's
batch key; and concretely, a two-ticker request in which every tier fails
for both tickers returns `None` with the fresh manager's cache still empty. -/
theorem C10_all_fail_returns_none :
    (∀ (avO : Nat → AVResponse) (yfO : List String → String → String → YfOutcome)
        (akNet cgNet : String → Option Frame) (tk p i : String) (s : DSMState)
        (ret : DPRet),
      downloadPrices avO yfO akNet cgNet tk p i s = .ok ret →
      ret.result = none →
      ret.s.batchCache = s.batchCache) ∧
    (∃ ret, downloadPrices (fun _ => .errorMsg) yfNoneO akNoneO akNoneO
        "AAA BBB" "5d" "1d" initState = .ok ret ∧
      ret.result = none ∧ ret.s.batchCache = []) := by
  constructor
  · intro avO yfO akNet cgNet tk p i s ret h hres
    unfold downloadPrices at h
    try dsimp only at h
    split at h
    · cases h
      cases hres
    · split at h
      · split at h
        · cases h
          cases hres
        · cases h
          cases hres
      · split at h
        · cases h
          cases hres
        · unfold dpTierWalk at h
          split at h
          · cases h
          next pd hpd =>
            split at h
            · cases h
            next step1 hav =>
              try dsimp only at h
              split at h
              · cases h
              next fin hak =>
                cases h
                obtain ⟨hfin, hstate⟩ := assembleResult_none _ fin.1 fin.2 hres
                rw [hstate]
                obtain ⟨hdfs2, hcache2⟩ := dpAkStage_nil_cache akNet cgNet _ _ p _ fin hak hfin
                rw [hcache2]
                obtain ⟨hdfs1, hcache1⟩ := dpYfStage_nil_cache yfO step1.2.1 step1.1 p i
                  step1.2.2 _ rfl hdfs2
                rw [hcache1]
                exact (avPhase_nil_cache avO pd _ [] [] s step1.1 step1.2.1 step1.2.2
                  (by rw [hav]) hdfs1).2
  · refine ⟨((downloadPrices (fun _ => .errorMsg) yfNoneO akNoneO akNoneO
        "AAA BBB" "5d" "1d" initState).toOption).getD ⟨none, initState⟩,
      by decide, by decide, by decide⟩

/-- Witness for C10 applying the universal part to the concrete all-fail
run. -/
theorem C10_witness :
    ∃ ret, downloadPrices (fun _ => .errorMsg) yfNoneO akNoneO akNoneO
        "AAA BBB" "5d" "1d" initState = .ok ret ∧
      ret.s.batchCache = initState.batchCache := by
  obtain ⟨ret, hrun, hres, -⟩ := C10_all_fail_returns_none.2
  exact ⟨ret, hrun, C10_all_fail_returns_none.1 (fun _ => .errorMsg) yfNoneO akNoneO
    akNoneO "AAA BBB" "5d" "1d" initState ret hrun hres⟩

/-- Witness for the amended C9 theorem at a concrete two-row payload. -/
theorem C9_amended_witness :
    ([⟨3, ⟨1, 1⟩, ⟨1, 1⟩, ⟨1, 1⟩, ⟨1, 1⟩, ⟨1, 1⟩⟩,
      ⟨5, ⟨1, 1⟩, ⟨1, 1⟩, ⟨1, 1⟩, ⟨1, 1⟩, ⟨1, 1⟩⟩] : Frame).Sorted rowLe ∧
    (([⟨3, ⟨1, 1⟩, ⟨1, 1⟩, ⟨1, 1⟩, ⟨1, 1⟩, ⟨1, 1⟩⟩,
       ⟨5, ⟨1, 1⟩, ⟨1, 1⟩, ⟨1, 1⟩, ⟨1, 1⟩, ⟨1, 1⟩⟩] : Frame).map Row.date).Nodup := by
  have h := (C9_amended_frame_shape.1
    [(5, ⟨some "1", some "1", some "1", some "1", some "1"⟩),
     (3, ⟨some "1", some "1", some "1", some "1", some "1"⟩)]
    [⟨3, ⟨1, 1⟩, ⟨1, 1⟩, ⟨1, 1⟩, ⟨1, 1⟩, ⟨1, 1⟩⟩,
     ⟨5, ⟨1, 1⟩, ⟨1, 1⟩, ⟨1, 1⟩, ⟨1, 1⟩, ⟨1, 1⟩⟩] (by decide))
  exact ⟨h.1, h.2 (by decide)⟩

/- ═══════════ Claim C5: tier failures never raise ═══════════ -/

/-- Success test on `Except Unit`. -/
def exOk {α : Type} : Except Unit α → Bool
  | .ok _ => true
  | .error _ => false

/-- Every `float()` call `_av_daily_to_df` makes on this entry succeeds. -/
def entryWf (e : AVEntry) : Bool :=
  exOk (pyFloatD e.o) && exOk (pyFloatD e.h) && exOk (pyFloatD e.l) &&
    exOk (pyFloatD e.c) && exOk (pyFloatD e.v)

/-- Every `float()` call `_av_crypto_to_df` makes on this entry succeeds. -/
def cryptoEntryWf (e : CryptoEntry) : Bool :=
  exOk (pyFloatD (pyOrS e.oA e.o)) && exOk (pyFloatD (pyOrS e.hA e.h)) &&
    exOk (pyFloatD (pyOrS e.lA e.l)) && exOk (pyFloatD (pyOrS e.cA e.c)) &&
    exOk (pyFloatD (pyTruthy e.v))

/-- Every `float()` call `_av_fx_to_df` makes on this entry succeeds. -/
def fxEntryWf (e : FxEntry) : Bool :=
  exOk (pyFloatD e.o) && exOk (pyFloatD e.h) && exOk (pyFloatD e.l) &&
    exOk (pyFloatD e.c)

/-- Payload all of whose numeric strings parse: the response normalizers
never raise a `ValueError` on it (claim C9 records the deviation when one
does not parse). -/
def payloadWf : AVPayload → Bool
  | .daily none => true
  | .daily (some ts) => ts.all (fun de => entryWf de.2)
  | .cryptoDaily none => true
  | .cryptoDaily (some ts) => ts.all (fun de => cryptoEntryWf de.2)
  | .fxDaily none => true
  | .fxDaily (some ts) => ts.all (fun de => fxEntryWf de.2)

/-- Response whose payload, if it carries one, is well-formed. -/
def respWf : AVResponse → Bool
  | .payload p => payloadWf p
  | _ => true

/-- Alpha Vantage oracle all of whose responses are well-formed. -/
def avOracleWf (avO : Nat → AVResponse) : Prop := ∀ n, respWf (avO n) = true

/-- The `_av_cache` of the state holds only well-formed payloads. -/
def avCacheWf (s : DSMState) : Prop := ∀ e ∈ s.avCache, payloadWf e.2 = true

theorem exOk_eq_true {α : Type} {x : Except Unit α} (h : exOk x = true) :
    ∃ a, x = .ok a := by
  cases x with
  | ok a => exact ⟨a, rfl⟩
  | error u => exact Bool.noConfusion h

theorem rowOfDaily_wfOk {d : Nat} {e : AVEntry} (h : entryWf e = true) :
    exOk (rowOfDaily d e) = true := by
  unfold entryWf at h
  simp only [Bool.and_eq_true] at h
  obtain ⟨⟨⟨⟨ho, hh⟩, hl⟩, hc⟩, hv⟩ := h
  obtain ⟨vo, ho1⟩ := exOk_eq_true ho
  obtain ⟨vh, hh1⟩ := exOk_eq_true hh
  obtain ⟨vl, hl1⟩ := exOk_eq_true hl
  obtain ⟨vc, hc1⟩ := exOk_eq_true hc
  obtain ⟨vv, hv1⟩ := exOk_eq_true hv
  unfold rowOfDaily
  rw [ho1, hh1, hl1, hc1, hv1] <;> rfl

theorem rowsOfDaily_wfOk {ts : List (Nat × AVEntry)}
    (h : ts.all (fun de => entryWf de.2) = true) :
    exOk (rowsOfDaily ts) = true := by
  induction ts with
  | nil => rfl
  | cons de rest ih =>
    obtain ⟨d, e⟩ := de
    simp only [List.all_cons, Bool.and_eq_true] at h
    obtain ⟨r, hr⟩ := exOk_eq_true (rowOfDaily_wfOk (d := d) h.1)
    obtain ⟨rs, hrs⟩ := exOk_eq_true (ih h.2)
    unfold rowsOfDaily
    rw [hr, hrs] <;> rfl

theorem rowOfCrypto_wfOk {d : Nat} {e : CryptoEntry} (h : cryptoEntryWf e = true) :
    exOk (rowOfCrypto d e) = true := by
  unfold cryptoEntryWf at h
  simp only [Bool.and_eq_true] at h
  obtain ⟨⟨⟨⟨ho, hh⟩, hl⟩, hc⟩, hv⟩ := h
  obtain ⟨vo, ho1⟩ := exOk_eq_true ho
  obtain ⟨vh, hh1⟩ := exOk_eq_true hh
  obtain ⟨vl, hl1⟩ := exOk_eq_true hl
  obtain ⟨vc, hc1⟩ := exOk_eq_true hc
  obtain ⟨vv, hv1⟩ := exOk_eq_true hv
  unfold rowOfCrypto
  rw [ho1, hh1, hl1, hc1, hv1] <;> rfl

theorem rowsOfCrypto_wfOk {ts : List (Nat × CryptoEntry)}
    (h : ts.all (fun de => cryptoEntryWf de.2) = true) :
    exOk (rowsOfCrypto ts) = true := by
  induction ts with
  | nil => rfl
  | cons de rest ih =>
    obtain ⟨d, e⟩ := de
    simp only [List.all_cons, Bool.and_eq_true] at h
    obtain ⟨r, hr⟩ := exOk_eq_true (rowOfCrypto_wfOk (d := d) h.1)
    obtain ⟨rs, hrs⟩ := exOk_eq_true (ih h.2)
    unfold rowsOfCrypto
    rw [hr, hrs] <;> rfl

theorem rowOfFx_wfOk {d : Nat} {e : FxEntry} (h : fxEntryWf e = true) :
    exOk (rowOfFx d e) = true := by
  unfold fxEntryWf at h
  simp only [Bool.and_eq_true] at h
  obtain ⟨⟨⟨ho, hh⟩, hl⟩, hc⟩ := h
  obtain ⟨vo, ho1⟩ := exOk_eq_true ho
  obtain ⟨vh, hh1⟩ := exOk_eq_true hh
  obtain ⟨vl, hl1⟩ := exOk_eq_true hl
  obtain ⟨vc, hc1⟩ := exOk_eq_true hc
  unfold rowOfFx
  rw [ho1, hh1, hl1, hc1] <;> rfl

theorem rowsOfFx_wfOk {ts : List (Nat × FxEntry)}
    (h : ts.all (fun de => fxEntryWf de.2) = true) :
    exOk (rowsOfFx ts) = true := by
  induction ts with
  | nil => rfl
  | cons de rest ih =>
    obtain ⟨d, e⟩ := de
    simp only [List.all_cons, Bool.and_eq_true] at h
    obtain ⟨r, hr⟩ := exOk_eq_true (rowOfFx_wfOk (d := d) h.1)
    obtain ⟨rs, hrs⟩ := exOk_eq_true (ih h.2)
    unfold rowsOfFx
    rw [hr, hrs] <;> rfl

theorem avDailyToDf_wfOk {p : AVPayload} (h : payloadWf p = true) :
    exOk (avDailyToDf p) = true := by
  cases p with
  | daily ts =>
    cases ts with
    | none => rfl
    | some l =>
      unfold payloadWf at h
      obtain ⟨rows, hrows⟩ := exOk_eq_true (rowsOfDaily_wfOk h)
      simp only [avDailyToDf]
      rw [hrows]
      dsimp only
      split <;> rfl
  | cryptoDaily ts => rfl
  | fxDaily ts => rfl

theorem avCryptoToDf_wfOk {p : AVPayload} (h : payloadWf p = true) :
    exOk (avCryptoToDf p) = true := by
  cases p with
  | cryptoDaily ts =>
    cases ts with
    | none => rfl
    | some l =>
      unfold payloadWf at h
      obtain ⟨rows, hrows⟩ := exOk_eq_true (rowsOfCrypto_wfOk h)
      simp only [avCryptoToDf]
      rw [hrows]
      dsimp only
      split <;> rfl
  | daily ts => rfl
  | fxDaily ts => rfl

theorem avFxToDf_wfOk {p : AVPayload} (h : payloadWf p = true) :
    exOk (avFxToDf p) = true := by
  cases p with
  | fxDaily ts =>
    cases ts with
    | none => rfl
    | some l =>
      unfold payloadWf at h
      obtain ⟨rows, hrows⟩ := exOk_eq_true (rowsOfFx_wfOk h)
      simp only [avFxToDf]
      rw [hrows]
      dsimp only
      split <;> rfl
  | daily ts => rfl
  | cryptoDaily ts => rfl

theorem mem_dictInsert {K V : Type} [DecidableEq K] {d : List (K × V)} {k : K}
    {v : V} {x : K × V} (h : x ∈ dictInsert d k v) : x ∈ d ∨ x = (k, v) := by
  unfold dictInsert at h
  split at h
  · rcases List.mem_map.mp h with ⟨p, hp, he⟩
    try dsimp only at he
    by_cases hk : p.1 = k
    · rw [if_pos hk] at he
      exact Or.inr he.symm
    · rw [if_neg hk] at he
      exact Or.inl (he ▸ hp)
  · rcases List.mem_append.mp h with h1 | h1
    · exact Or.inl h1
    · exact Or.inr (List.mem_singleton.mp h1)

theorem avLoop_wf (avO : Nat → AVResponse) (params : AVParams)
    (hO : avOracleWf avO) :
    ∀ (n : Nat) (s : DSMState) (r : Option AVPayload) (s' : DSMState),
      avCacheWf s → avLoop avO params n s = (r, s') →
      avCacheWf s' ∧ (∀ p, r = some p → payloadWf p = true) := by
  intro n
  induction n with
  | zero =>
    intro s r s' hs h
    unfold avLoop at h
    cases h
    exact ⟨hs, fun p hp => by cases hp⟩
  | succ n ih =>
    intro s r s' hs h
    unfold avLoop at h
    try dsimp only at h
    split at h
    next heq =>
      split at h
      · cases h
        exact ⟨hs, fun p hp => by cases hp⟩
      · split at h
        · refine ih _ r s' ?_ h
          exact hs
        · cases h
          exact ⟨hs, fun p hp => by cases hp⟩
    next heq =>
      cases h
      exact ⟨hs, fun p hp => by cases hp⟩
    next heq =>
      cases h
      exact ⟨hs, fun p hp => by cases hp⟩
    next heq =>
      cases h
      exact ⟨hs, fun p hp => by cases hp⟩
    next p heq =>
      cases h
      have hp : payloadWf p = true := by
        have h0 := hO s.avHttp
        rw [heq] at h0
        exact h0
      refine ⟨?_, fun q hq => by cases hq; exact hp⟩
      intro e he
      rcases mem_dictInsert he with h1 | h1
      · exact hs e h1
      · rw [h1]
        exact hp
    next heq =>
      split at h
      · refine ih _ r s' ?_ h
        exact hs
      · cases h
        exact ⟨hs, fun p hp => by cases hp⟩

theorem avRequest_wf (avO : Nat → AVResponse) (params : AVParams) (m : Nat)
    (s : DSMState) (r : Option AVPayload) (s' : DSMState)
    (hO : avOracleWf avO) (hs : avCacheWf s)
    (h : avRequest avO params m s = (r, s')) :
    avCacheWf s' ∧ (∀ p, r = some p → payloadWf p = true) := by
  unfold avRequest at h
  split at h
  · cases h
    exact ⟨hs, fun p hp => by cases hp⟩
  · split at h
    next p hcache =>
      cases h
      exact ⟨hs, fun q hq => by
        cases hq
        exact hs _ (alookup_mem hcache)⟩
    next =>
      refine avLoop_wf avO params hO m _ r s' ?_ h
      exact hs

theorem avFetchDaily_wf (avO : Nat → AVResponse) (symbol : String) (s : DSMState)
    (hO : avOracleWf avO) (hs : avCacheWf s) :
    exOk (avFetchDaily avO symbol s).1 = true ∧ avCacheWf (avFetchDaily avO symbol s).2 := by
  unfold avFetchDaily
  try dsimp only
  rcases hrr : avRequest avO (.daily symbol) 3 s with ⟨ro, s2⟩
  have hreq := avRequest_wf avO (.daily symbol) 3 s ro s2 hO hs hrr
  dsimp only
  cases ro with
  | none => exact ⟨rfl, hreq.1⟩
  | some p => exact ⟨avDailyToDf_wfOk (hreq.2 p rfl), hreq.1⟩

theorem fetchSingleTickerAv_wf (avO : Nat → AVResponse) (t : String) (s : DSMState)
    (hO : avOracleWf avO) (hs : avCacheWf s) :
    exOk (fetchSingleTickerAv avO t s).1 = true ∧
      avCacheWf (fetchSingleTickerAv avO t s).2 := by
  unfold fetchSingleTickerAv avFetchDaily
  try dsimp only
  split
  next sym hsym =>
    rcases hrr : avRequest avO (.cryptoDaily sym) 3 s with ⟨ro, s2⟩
    have hreq := avRequest_wf avO (.cryptoDaily sym) 3 s ro s2 hO hs hrr
    dsimp only
    cases ro with
    | none => exact ⟨rfl, hreq.1⟩
    | some p => exact ⟨avCryptoToDf_wfOk (hreq.2 p rfl), hreq.1⟩
  next =>
    split
    next ft hft =>
      rcases hrr : avRequest avO (.fxDaily ft.1 ft.2) 3 s with ⟨ro, s2⟩
      have hreq := avRequest_wf avO (.fxDaily ft.1 ft.2) 3 s ro s2 hO hs hrr
      dsimp only
      cases ro with
      | none => exact ⟨rfl, hreq.1⟩
      | some p => exact ⟨avFxToDf_wfOk (hreq.2 p rfl), hreq.1⟩
    next =>
      split
      · exact ⟨rfl, hs⟩
      next etf hetf =>
        rcases hrr : avRequest avO (.daily etf) 3 s with ⟨ro, s2⟩
        have hreq := avRequest_wf avO (.daily etf) 3 s ro s2 hO hs hrr
        dsimp only
        cases ro with
        | none => exact ⟨rfl, hreq.1⟩
        | some p => exact ⟨avDailyToDf_wfOk (hreq.2 p rfl), hreq.1⟩
      next =>
        rcases hrr : avRequest avO (.daily t) 3 s with ⟨ro, s2⟩
        have hreq := avRequest_wf avO (.daily t) 3 s ro s2 hO hs hrr
        dsimp only
        cases ro with
        | none => exact ⟨rfl, hreq.1⟩
        | some p => exact ⟨avDailyToDf_wfOk (hreq.2 p rfl), hreq.1⟩

theorem avStepMiss_wf (avO : Nat → AVResponse) (pd : Int) (t : String)
    (dfs : List (String × Frame)) (failed : List String) (s : DSMState)
    (hO : avOracleWf avO) (hs : avCacheWf s) :
    ∃ out, avStepMiss avO pd t dfs failed s = .ok out ∧ avCacheWf out.2.2 := by
  unfold avStepMiss
  split
  · exact ⟨(dfs, failed ++ [t], s), rfl, hs⟩
  · split
    · exact ⟨(dfs, failed ++ [t], s), rfl, hs⟩
    · rcases hfs : fetchSingleTickerAv avO t s with ⟨er, s2⟩
      have hw := fetchSingleTickerAv_wf avO t s hO hs
      rw [hfs] at hw
      dsimp only at hw
      dsimp only
      cases er with
      | error u => exact Bool.noConfusion hw.1
      | ok odf =>
        cases odf with
        | none => exact ⟨(dfs, failed ++ [t], s2), rfl, hw.2⟩
        | some df =>
          dsimp only
          split
          · exact ⟨_, rfl, hw.2⟩
          · exact ⟨(dfs, failed ++ [t], s2), rfl, hw.2⟩

theorem avStep_wf (avO : Nat → AVResponse) (pd : Int) (t : String)
    (dfs : List (String × Frame)) (failed : List String) (s : DSMState)
    (hO : avOracleWf avO) (hs : avCacheWf s) :
    ∃ out, avStep avO pd t dfs failed s = .ok out ∧ avCacheWf out.2.2 := by
  unfold avStep
  split
  next rows hrows =>
    split
    · exact ⟨_, rfl, hs⟩
    · exact avStepMiss_wf avO pd t dfs failed s hO hs
  next => exact avStepMiss_wf avO pd t dfs failed s hO hs
  next => exact avStepMiss_wf avO pd t dfs failed s hO hs

theorem avPhase_wf (avO : Nat → AVResponse) (pd : Int) (hO : avOracleWf avO) :
    ∀ (ts : List String) (dfs : List (String × Frame)) (failed : List String)
      (s : DSMState), avCacheWf s →
      ∃ out, avPhase avO pd ts dfs failed s = .ok out ∧ avCacheWf out.2.2 := by
  intro ts
  induction ts with
  | nil =>
    intro dfs failed s hs
    exact ⟨(dfs, failed, s), rfl, hs⟩
  | cons t rest ih =>
    intro dfs failed s hs
    obtain ⟨acc, hstep, hacc⟩ := avStep_wf avO pd t dfs failed s hO hs
    unfold avPhase
    rw [hstep]
    exact ih acc.1 acc.2.1 acc.2.2 hacc

theorem akshareUsFallback_ok (akNet cgNet : String → Option Frame)
    (ts : List String) (period : String) (s : DSMState) (d : Int)
    (hd : periodToDays period = .ok d) :
    akshareUsFallback akNet cgNet ts period s =
      .ok (akFallbackLoop akNet cgNet (if d ≤ 0 then 90 else d) ts [] s) := by
  unfold akshareUsFallback
  rw [hd]
  rfl

theorem dpAkStage_ok (akNet cgNet : String → Option Frame) (still : List String)
    (dfs2 : List (String × Frame)) (period : String) (s2 : DSMState) (d : Int)
    (hd : periodToDays period = .ok d) :
    ∃ out, dpAkStage akNet cgNet still dfs2 period s2 = .ok out := by
  unfold dpAkStage
  split
  · exact ⟨_, rfl⟩
  · rw [akshareUsFallback_ok akNet cgNet still period s2 d hd]
    exact ⟨_, rfl⟩

theorem dpTierWalk_ok (avO : Nat → AVResponse)
    (yfO : List String → String → String → YfOutcome)
    (akNet cgNet : String → Option Frame)
    (tl : List String) (period interval : String) (s : DSMState) (d : Int)
    (hO : avOracleWf avO) (hs : avCacheWf s) (hd : periodToDays period = .ok d) :
    ∃ ret, dpTierWalk avO yfO akNet cgNet tl period interval s = .ok ret := by
  unfold dpTierWalk
  rw [hd]
  dsimp only
  obtain ⟨step1, hstep1, hacc⟩ := avPhase_wf avO d hO tl [] [] s hs
  rw [hstep1]
  dsimp only
  obtain ⟨fin, hfin⟩ := dpAkStage_ok akNet cgNet
      (dpYfStage yfO step1.2.1 step1.1 period interval step1.2.2).2.1
      (dpYfStage yfO step1.2.1 step1.1 period interval step1.2.2).1 period
      (dpYfStage yfO step1.2.1 step1.1 period interval step1.2.2).2.2 d hd
  rw [hfin]
  exact ⟨_, rfl⟩

theorem downloadPrices_ok (avO : Nat → AVResponse)
    (yfO : List String → String → String → YfOutcome)
    (akNet cgNet : String → Option Frame)
    (tickers period interval : String) (s : DSMState) (d : Int)
    (hO : avOracleWf avO) (hs : avCacheWf s) (hd : periodToDays period = .ok d) :
    ∃ ret, downloadPrices avO yfO akNet cgNet tickers period interval s = .ok ret := by
  unfold downloadPrices
  try dsimp only
  repeat' split
  all_goals first
    | exact ⟨_, rfl⟩
    | exact dpTierWalk_ok avO yfO akNet cgNet _ period interval s d hO hs hd

/-- Alpha Vantage oracle whose second HTTP attempt (the one serving ticker
"BBB" in the sorted three-ticker batch) is an `'Error Message'`, every other
attempt returning a good payload. -/
def c5av : Nat → AVResponse := fun n => if n == 1 then .errorMsg else .payload goodPayload

/-- C5: partial-batch isolation.  First, whenever every Alpha Vantage payload
(from the oracle and in the pre-existing `_av_cache`) has parsable numeric
strings and the period token is valid, `download_prices` returns normally:
no exception reaches the caller, whatever mixture of provider failures the
tiers produce (an unparsable payload or period is the C9 deviation, not a
tier failure).  Second, in a concrete three-ticker batch where "BBB"
exhausts every tier — `'Error Message'` from Alpha Vantage, an empty
yfinance download, an AkShare endpoint with no data — while "AAA" and "CCC"
succeed, the call returns a MultiIndex frame holding complete frames for
exactly the two successful tickers, "BBB" being absent, and the failed list
really reached the yfinance tier. -/
theorem C5_partial_batch_isolation :
    (∀ (avO : Nat → AVResponse) (yfO : List String → String → String → YfOutcome)
       (akNet cgNet : String → Option Frame) (tickers period interval : String)
       (s : DSMState) (d : Int),
       avOracleWf avO → avCacheWf s → periodToDays period = .ok d →
       ∃ ret, downloadPrices avO yfO akNet cgNet tickers period interval s = .ok ret) ∧
    (∃ ret panel,
      downloadPrices c5av yfNoneO akNoneO akNoneO "AAA BBB CCC" "5d" "1d" initState
        = .ok ret ∧
      ret.result = some (.multi panel) ∧
      alookup panel "AAA" = some goodFrame ∧
      alookup panel "CCC" = some goodFrame ∧
      alookup panel "BBB" = none ∧
      ret.s.yfRequests = [["BBB"]]) := by
  constructor
  · intro avO yfO akNet cgNet tickers period interval s d hO hs hd
    exact downloadPrices_ok avO yfO akNet cgNet tickers period interval s d hO hs hd
  · refine ⟨(downloadPrices c5av yfNoneO akNoneO akNoneO "AAA BBB CCC" "5d" "1d"
        initState).toOption.getD ⟨none, initState⟩,
      [("AAA", goodFrame), ("CCC", goodFrame)], ?_, ?_, ?_, ?_, ?_, ?_⟩ <;> decide

/-- Witness for C5: the totality part applied at a concrete all-good oracle
over a two-ticker request, every hypothesis discharged concretely. -/
theorem C5_witness :
    avOracleWf avAllGood ∧ avCacheWf initState ∧ periodToDays "5d" = .ok 5 ∧
    ∃ ret, downloadPrices avAllGood yfNoneO akNoneO akNoneO "AAA BBB" "5d" "1d" initState
      = .ok ret := by
  have hO : avOracleWf avAllGood := fun n => rfl
  have hs : avCacheWf initState := by
    intro e he
    cases he
  exact ⟨hO, hs, by decide, C5_partial_batch_isolation.1 avAllGood yfNoneO akNoneO akNoneO
    "AAA BBB" "5d" "1d" initState 5 hO hs (by decide)⟩
